import Mathlib

/-!
# Distance estimator programs (distpbm.c, distps.c, distjules.c)

Shallow embedding of the three programs over an arbitrary linearly ordered
field `K` (exact arithmetic; instantiate `K := ℝ` for the real-number reading,
`K := ℚ` to evaluate).  The libm functions `log`, `sqrt` and `pow` are taken as
parameters `logf`, `sqrtf`, `powf`; the theorems that need their properties
instantiate them with `Real.log`, `Real.sqrt` and integer powers.

C `long` values are `Int` (no arithmetic in the programs comes near the
64-bit range for the inputs considered); loop counters that start at `0` and
are only incremented are `Nat`.

Contents: `estimate_distance` (distpbm.c, distps.c), the viewport and `delta` of
the three programs, the image stream of distpbm.c, `jdist` and the grayscale
quantizer of distjules.c, the hex image data of distps.c; then the theorems.
-/

namespace DistanceEstimator

variable {K : Type} [LinearOrderedField K]

/-! ## Loops -/

/-- A C loop `while (cond) body` run for at most `fuel` passes.  Every use
below comes with a proof that the fuel given is enough for the test to fail. -/
def while_loop {σ : Type} (cond : σ → Prop) [DecidablePred cond] (body : σ → σ) :
    Nat → σ → σ
  | 0, s => s
  | fuel + 1, s => if cond s then while_loop cond body fuel (body s) else s

/-! ## Global state of distpbm.c / distps.c -/

/-- The global `huge`, assigned `100000.0` at the top of `estimate_distance`. -/
def huge : K := 100000

/-- The global orbit buffers `xorbits`, `yorbits` (memory indexed by element). -/
structure Orbits (K : Type) where
  xorbits : Nat → K
  yorbits : Nat → K

/-! ## estimate_distance (distpbm.c lines 62-104, distps.c lines 65-113) -/

/-- Local variables of the forward loop, together with the orbit buffers. -/
structure FwdState (K : Type) where
  x : K
  y : K
  x2 : K
  y2 : K
  iter : Nat
  orb : Orbits K

/-- The state after `x = y = x2 = y2 = dist = xorbits[0] = yorbits[0] = 0.0; iter = 0;`. -/
def fwd_init (orb0 : Orbits K) : FwdState K :=
  { x := 0, y := 0, x2 := 0, y2 := 0, iter := 0,
    orb := { xorbits := Function.update orb0.xorbits 0 0,
             yorbits := Function.update orb0.yorbits 0 0 } }

/-- The loop test `(iter < maxiter) && ((x2 + y2) < huge)`. -/
def fwd_cond (maxiter : Int) (s : FwdState K) : Prop :=
  (s.iter : Int) < maxiter ∧ s.x2 + s.y2 < (huge : K)

instance fwd_cond_decidable (maxiter : Int) (s : FwdState K) :
    Decidable (fwd_cond maxiter s) := by
  unfold fwd_cond; infer_instance

/-- One pass through the body of the forward loop. -/
def fwd_step (cx cy : K) (s : FwdState K) : FwdState K :=
  let temp := s.x2 - s.y2 + cx
  let y := 2 * s.x * s.y + cy
  let x := temp
  { x := x, y := y, x2 := x * x, y2 := y * y, iter := s.iter + 1,
    orb := { xorbits := Function.update s.orb.xorbits s.iter x,
             yorbits := Function.update s.orb.yorbits s.iter y } }

/-- The forward `while` loop, bounded by `fuel` passes. -/
def fwd_loop (cx cy : K) (maxiter : Int) (fuel : Nat) (s : FwdState K) : FwdState K :=
  while_loop (fwd_cond maxiter) (fwd_step cx cy) fuel s

/-- The state at exit of the forward loop of `estimate_distance`; `maxiter`
passes of fuel are enough for the loop test to fail (see `fwd_final_exit`). -/
def fwd_final (orb0 : Orbits K) (cx cy : K) (maxiter : Int) : FwdState K :=
  fwd_loop cx cy maxiter maxiter.toNat (fwd_init orb0)

/-- Local variables of the replay loop. -/
structure ReplayState (K : Type) where
  xder : K
  yder : K
  flag : Bool
  i : Nat

/-- The state after `xder = yder = 0.0; i = 0; flag = 0;`. -/
def replay_init : ReplayState K :=
  { xder := 0, yder := 0, flag := false, i := 0 }

/-- The loop test `(i < (iter - 1)) && (!flag)`. -/
def replay_cond (iter : Nat) (r : ReplayState K) : Prop :=
  (r.i : Int) < (iter : Int) - 1 ∧ r.flag = false

instance replay_cond_decidable (iter : Nat) (r : ReplayState K) :
    Decidable (replay_cond iter r) := by
  unfold replay_cond; infer_instance

/-- The overflow test `(fabs (xder) > overflow) || (fabs (yder) > overflow)`. -/
def exceeds (overflow : K) (xder yder : K) : Prop :=
  abs xder > overflow ∨ abs yder > overflow

instance exceeds_decidable (overflow xder yder : K) : Decidable (exceeds overflow xder yder) := by
  unfold exceeds; infer_instance

/-- One pass through the body of the replay loop. -/
def replay_step (overflow : K) (orb : Orbits K) (r : ReplayState K) : ReplayState K :=
  let temp := 2 * (orb.xorbits r.i * r.xder - orb.yorbits r.i * r.yder) + 1
  let yder := 2 * (orb.yorbits r.i * r.xder + orb.xorbits r.i * r.yder)
  let xder := temp
  { xder := xder, yder := yder,
    flag := if exceeds overflow xder yder then true else r.flag,
    i := r.i + 1 }

/-- The replay `while` loop, bounded by `fuel` passes. -/
def replay_loop (overflow : K) (orb : Orbits K) (iter : Nat) (fuel : Nat)
    (r : ReplayState K) : ReplayState K :=
  while_loop (replay_cond iter) (replay_step overflow orb) fuel r

/-- The state at exit of the replay loop for the forward state `s`; `iter`
passes of fuel are enough for the loop test to fail (see `replay_final_exit`). -/
def replay_final (overflow : K) (s : FwdState K) : ReplayState K :=
  replay_loop overflow s.orb s.iter s.iter replay_init

/-- The replay state after `k` passes of the loop body from the initial state,
with the loop test left out (the derivative recurrence itself). -/
def replay_at (overflow : K) (orb : Orbits K) (k : Nat) : ReplayState K :=
  (replay_step overflow orb)^[k] replay_init

/-- The value of `dist` at `return (dist)`, given the forward exit state. -/
def dist_of (logf sqrtf : K → K) (overflow : K) (s : FwdState K) : K :=
  if s.x2 + s.y2 > (huge : K) then
    let r := replay_final overflow s
    if r.flag = false then
      logf (s.x2 + s.y2) * sqrtf (s.x2 + s.y2) / sqrtf (r.xder * r.xder + r.yder * r.yder)
    else huge
  else 0

/-- The function `estimate_distance (cx, cy, maxiter)`: the globals `overflow`
and the orbit buffers are explicit arguments, `logf` and `sqrtf` stand for the
libm functions. -/
def estimate_distance (logf sqrtf : K → K) (overflow : K) (orb0 : Orbits K)
    (cx cy : K) (maxiter : Int) : K :=
  dist_of logf sqrtf overflow (fwd_final orb0 cx cy maxiter)

/-- The orbit buffers left behind by a call of `estimate_distance`. -/
def estimate_distance_orbits (orb0 : Orbits K) (cx cy : K) (maxiter : Int) : Orbits K :=
  (fwd_final orb0 cx cy maxiter).orb

/-! ## Mathematical orbit -/

/-- The orbit `z_0 = 0`, `z_{n+1} = z_n^2 + c` of the quadratic map, as pairs
(real part, imaginary part). -/
def orbit (cx cy : K) : Nat → K × K
  | 0 => (0, 0)
  | n + 1 =>
    ((orbit cx cy n).1 * (orbit cx cy n).1 - (orbit cx cy n).2 * (orbit cx cy n).2 + cx,
     2 * (orbit cx cy n).1 * (orbit cx cy n).2 + cy)

/-- The squared modulus of a pair. -/
def normSq2 (z : K × K) : K := z.1 * z.1 + z.2 * z.2

/-- Orbit buffers holding zero everywhere (a concrete initial memory). -/
def zero_orbits : Orbits K := { xorbits := fun _ => 0, yorbits := fun _ => 0 }

/-! ## Viewport (the "figure out aspect ratios" part of the three `main`s) -/

/-- The bounds `xmin`, `ymin`, `xmax`, `ymax` of the view. -/
structure Viewport (K : Type) where
  xmin : K
  ymin : K
  xmax : K
  ymax : K

/-- The value of `width_half` in distpbm.c (lines 135-141). -/
def distpbm_width_half (range : K) (width height : Int) : K :=
  if width > height then range / 2 else (range * ((width : K) / (height : K))) / 2

/-- The value of `height_half` in distpbm.c (lines 135-141). -/
def distpbm_height_half (range : K) (width height : Int) : K :=
  if width > height then (range * ((height : K) / (width : K))) / 2 else range / 2

/-- The bounds computed by distpbm.c (lines 143-146). -/
def distpbm_viewport (x y range : K) (width height : Int) : Viewport K :=
  { xmin := x - distpbm_width_half range width height,
    ymin := y - distpbm_height_half range width height,
    xmax := x + distpbm_width_half range width height,
    ymax := y + distpbm_height_half range width height }

/-- The value of `width_half` in distjules.c (lines 117-123). -/
def distjules_width_half (range : K) (width height : Int) : K :=
  if width > height then range / 2 else (range * ((width : K) / (height : K))) / 2

/-- The value of `height_half` in distjules.c (lines 117-123). -/
def distjules_height_half (range : K) (width height : Int) : K :=
  if width > height then (range * ((height : K) / (width : K))) / 2 else range / 2

/-- The bounds computed by distjules.c (lines 125-128). -/
def distjules_viewport (x y range : K) (width height : Int) : Viewport K :=
  { xmin := x - distjules_width_half range width height,
    ymin := y - distjules_height_half range width height,
    xmax := x + distjules_width_half range width height,
    ymax := y + distjules_height_half range width height }

/-- The value of `width_half` in distps.c (lines 150-159); `height / width` is a
division of `long`s, truncated towards zero. -/
def distps_width_half (range : K) (width height : Int) : K :=
  if width > height then range / 2 else (range * ((Int.tdiv height width : Int) : K)) / 2

/-- The value of `height_half` in distps.c (lines 150-159). -/
def distps_height_half (range : K) (width height : Int) : K :=
  if width > height then (range * ((Int.tdiv height width : Int) : K)) / 2 else range / 2

/-- The bounds computed by distps.c (lines 161-164): both minima use
`width_half`, both maxima use `height_half`. -/
def distps_viewport (x y range : K) (width height : Int) : Viewport K :=
  { xmin := x - distps_width_half range width height,
    ymin := y - distps_width_half range width height,
    xmax := x + distps_height_half range width height,
    ymax := y + distps_height_half range width height }

/-- The interpolation `min + index * (max - min) / (dimension - 1)` used for
`cx`, `cy` (distpbm.c lines 170, 177; distps.c lines 188, 210) and `zx`, `zy`
(distjules.c lines 139, 146). -/
def pixel_coord (lo hi : K) (index dimension : Int) : K :=
  lo + (index : K) * (hi - lo) / ((dimension - 1 : Int) : K)

/-- The value `delta = threshold * (xmax - xmin) / (width - 1)` of distpbm.c
(line 150) and distps.c (line 168); `threshold` is a `long` there. -/
def mandel_delta (threshold : Int) (vp : Viewport K) (width : Int) : K :=
  (threshold : K) * (vp.xmax - vp.xmin) / ((width - 1 : Int) : K)

/-- The value `delta` of distpbm.c. -/
def distpbm_delta (x y range : K) (width height threshold : Int) : K :=
  mandel_delta threshold (distpbm_viewport x y range width height) width

/-- The value `delta` of distps.c. -/
def distps_delta (x y range : K) (width height threshold : Int) : K :=
  mandel_delta threshold (distps_viewport x y range width height) width

/-- The value `delta = threshold * range / width` of distjules.c (line 132);
`threshold` is a `double` there. -/
def distjules_delta (range : K) (width : Int) (threshold : K) : K :=
  threshold * range / (width : K)

/-! ## Output quantizer of distpbm.c -/

/-- The token printed for one pixel (distpbm.c lines 181-185). -/
def distpbm_token (dist delta : K) : String :=
  if dist < delta then "1 " else "0 "

/-! ## main of distpbm.c (lines 109-189): the image stream on stdout -/

/-- The part of the state of `main` that the pixel loops change: `linepos`, the
global orbit buffers, and the characters written to stdout so far. -/
structure PbmState (K : Type) where
  linepos : Int
  orb : Orbits K
  out : String

/-- The body of the inner loop `for (ix = 0; ix < width; ix++)` (lines 177-185). -/
def distpbm_pixel (logf sqrtf : K → K) (overflow delta : K) (vp : Viewport K)
    (width maxiter : Int) (cy : K) (st : PbmState K) (ix : Nat) : PbmState K :=
  let cx := pixel_coord vp.xmin vp.xmax (ix : Int) width
  let dist := estimate_distance logf sqrtf overflow st.orb cx cy maxiter
  let orb := estimate_distance_orbits st.orb cx cy maxiter
  if st.linepos + 2 > 70 then
    { linepos := 0, orb := orb, out := st.out ++ "\n" ++ distpbm_token dist delta }
  else
    { linepos := st.linepos + 2, orb := orb, out := st.out ++ distpbm_token dist delta }

/-- The body of the outer loop `for (iy = 0; iy < height; iy++)` (lines 170-186);
the progress dots go to stderr and are not part of the image stream. -/
def distpbm_row (logf sqrtf : K → K) (overflow delta : K) (vp : Viewport K)
    (width height maxiter : Int) (st : PbmState K) (iy : Nat) : PbmState K :=
  let cy := pixel_coord vp.ymin vp.ymax (iy : Int) height
  (List.range width.toNat).foldl (distpbm_pixel logf sqrtf overflow delta vp width maxiter cy) st

/-- What `printf ("P1\n%ld %ld\n", width, height)` writes. -/
def distpbm_header (width height : Int) : String :=
  "P1\n" ++ toString width ++ " " ++ toString height ++ "\n"

/-- The characters written to stdout by `main` of distpbm.c for parsed
arguments `x y range width height maxiter threshold`; `malloc_ok` tells whether
both `malloc` calls succeeded, `orb0` is the initial content of the allocated
buffers, `powf` stands for libm `pow`. -/
def distpbm_main (logf sqrtf : K → K) (powf : K → K → K) (malloc_ok : Bool)
    (orb0 : Orbits K) (x y range : K) (width height maxiter threshold : Int) : String :=
  let vp := distpbm_viewport x y range width height
  let delta := mandel_delta threshold vp width
  let overflow := powf delta (-2)
  if malloc_ok then
    ((List.range height.toNat).foldl
      (distpbm_row logf sqrtf overflow delta vp width height maxiter)
      { linepos := 0, orb := orb0, out := distpbm_header width height }).out
  else distpbm_header width height

/-- The pixels `(iy, ix)` of a `width` x `height` image in raster order: row
`iy` outer, column `ix` inner. -/
def raster_pixels (width height : Int) : List (Nat × Nat) :=
  (List.range height.toNat).flatMap (fun iy => (List.range width.toNat).map (fun ix => (iy, ix)))

/-- The characters that the `linepos` rule of the pixel loop produces for a
list of tokens, starting from line position `lp`. -/
def wrap_tokens : Int → List String → List Char
  | _, [] => []
  | lp, t :: ts =>
    if lp + 2 > 70 then '\n' :: (t.data ++ wrap_tokens 0 ts)
    else t.data ++ wrap_tokens (lp + 2) ts

/-! ## The distance formulas -/

/-- The expression assigned to `dist` when the replay was not aborted
(distpbm.c line 98, distps.c lines 106-107). -/
def mandel_formula (logf sqrtf : K → K) (x2 y2 xder yder : K) : K :=
  logf (x2 + y2) * sqrtf (x2 + y2) / sqrtf (xder * xder + yder * yder)

/-- The value returned by `jdist` from the last `nz` and `nzp`:
`a = sqrt(nz); return 2*a*log(a)/sqrt(nzp);` (distjules.c lines 76-78). -/
def jdist_formula (logf sqrtf : K → K) (nz nzp : K) : K :=
  2 * sqrtf nz * logf (sqrtf nz) / sqrtf nzp

/-! ## Accesses to the orbit buffers -/

/-- The observations `obs s` made on entry to each pass of a bounded loop
`while (cond) body`, in order. -/
def while_trace {σ α : Type} (cond : σ → Prop) [DecidablePred cond] (body : σ → σ)
    (obs : σ → α) : Nat → σ → List α
  | 0, _ => []
  | fuel + 1, s =>
    if cond s then obs s :: while_trace cond body obs fuel (body s) else []

/-- The indices `iter` of the writes `xorbits[iter] = x; yorbits[iter] = y;` made
by the passes of the forward loop of one call, in order. -/
def fwd_writes (orb0 : Orbits K) (cx cy : K) (maxiter : Int) : List Nat :=
  while_trace (fwd_cond maxiter) (fwd_step cx cy) (fun s => s.iter) maxiter.toNat (fwd_init orb0)

/-- The indices `i` of the reads `xorbits[i]`, `yorbits[i]` made by the passes of
the replay loop entered with the forward exit state `s`, in order. -/
def replay_reads (overflow : K) (s : FwdState K) : List Nat :=
  while_trace (replay_cond s.iter) (replay_step overflow s.orb) (fun r => r.i) s.iter replay_init

/-! ## Derivative of the orbit with respect to `c` -/

/-- The derivative `dz_n/dc` of the orbit point `z_n`: `dz_0/dc = 0`,
`dz_{n+1}/dc = 2 * z_n * dz_n/dc + 1` (complex product, as pairs). -/
def dorbit (cx cy : K) : Nat → K × K
  | 0 => (0, 0)
  | n + 1 =>
    (2 * ((orbit cx cy n).1 * (dorbit cx cy n).1 - (orbit cx cy n).2 * (dorbit cx cy n).2) + 1,
     2 * ((orbit cx cy n).1 * (dorbit cx cy n).2 + (orbit cx cy n).2 * (dorbit cx cy n).1))

/-! ## jdist (distjules.c lines 50-79) -/

/-- Local variables of `jdist`.  `nz` and `nzp` hold no value before the first
pass of the loop (they are declared without initialiser); `brk` records that
the `for` loop was left through `break`.  The `int` counter `i` is an unbounded
integer (it stays below `iter_max + 2`). -/
structure JState (K : Type) where
  x : K
  y : K
  xp : K
  yp : K
  nz : Option K
  nzp : Option K
  i : Int
  brk : Bool

/-- The escape bound `1e60`. -/
def jdist_bound : K := 10 ^ 60

/-- The state after the declarations and `i = 1`. -/
def jdist_init (Zx Zy : K) : JState K :=
  { x := Zx, y := Zy, xp := 1, yp := 0, nz := none, nzp := none, i := 1, brk := false }

/-- The test of the `for` loop, `i <= iter_max`, for a loop not left by `break`. -/
def jdist_cond (iter_max : Int) (s : JState K) : Prop :=
  s.i ≤ iter_max ∧ s.brk = false

instance jdist_cond_decidable (iter_max : Int) (s : JState K) :
    Decidable (jdist_cond iter_max s) := by
  unfold jdist_cond; infer_instance

/-- The test `nzp > 1e60 || nz > 1e60` on the squared moduli of the state. -/
def jdist_test (s : JState K) : Prop :=
  s.xp * s.xp + s.yp * s.yp > (jdist_bound : K) ∨ s.x * s.x + s.y * s.y > (jdist_bound : K)

instance jdist_test_decidable (s : JState K) : Decidable (jdist_test s) := by
  unfold jdist_test; infer_instance

/-- One pass through the body of the `for` loop, followed by `i++` unless the
pass ends in `break`. -/
def jdist_body (Cx Cy : K) (s : JState K) : JState K :=
  let nz1 := 2 * (s.x * s.xp - s.y * s.yp)
  let yp := 2 * (s.x * s.yp + s.y * s.xp)
  let xp := nz1
  let nz2 := s.x * s.x - s.y * s.y + Cx
  let y := 2 * s.x * s.y + Cy
  let x := nz2
  let nz := x * x + y * y
  let nzp := xp * xp + yp * yp
  if nzp > (jdist_bound : K) ∨ nz > (jdist_bound : K) then
    { x := x, y := y, xp := xp, yp := yp, nz := some nz, nzp := some nzp, i := s.i, brk := true }
  else
    { x := x, y := y, xp := xp, yp := yp, nz := some nz, nzp := some nzp, i := s.i + 1,
      brk := false }

/-- The state after `k` passes of the loop body, the loop test left out. -/
def jdist_at (Zx Zy Cx Cy : K) (k : Nat) : JState K :=
  (jdist_body Cx Cy)^[k] (jdist_init Zx Zy)

/-- The state at exit of the `for` loop; `iter_max` passes of fuel are enough
(see `jdist_final_exit`). -/
def jdist_final (Zx Zy Cx Cy : K) (iter_max : Int) : JState K :=
  while_loop (jdist_cond iter_max) (jdist_body Cx Cy) iter_max.toNat (jdist_init Zx Zy)

/-- The function `jdist (Zx, Zy, Cx, Cy, iter_max)`; the result is `none` when
the return statement reads `nz`, `nzp` that were never assigned (no pass made). -/
def jdist (logf sqrtf : K → K) (Zx Zy Cx Cy : K) (iter_max : Int) : Option K :=
  match (jdist_final Zx Zy Cx Cy iter_max).nz, (jdist_final Zx Zy Cx Cy iter_max).nzp with
  | some nz, some nzp => some (jdist_formula logf sqrtf nz nzp)
  | _, _ => none

/-- The orbit `z_0 = z0`, `z_{k+1} = z_k^2 + c` of the Julia iteration, as complex
numbers. -/
def julia_orbit (z0 c : ℂ) : Nat → ℂ
  | 0 => z0
  | k + 1 => (julia_orbit z0 c k) ^ 2 + c

/-! ## Grayscale quantizer of distjules.c (lines 155-160) -/

section Quantizer

variable [FloorRing K]

/-- The conversion `(int) v` of a `double`: truncation towards zero (the result
is taken as an unbounded integer). -/
def c_int_cast (v : K) : Int :=
  if 0 ≤ v then Int.floor v else Int.ceil v

/-- The integer printed for one pixel: `(int) (dist / (threshold/256))` when
`dist < delta`, else `0`. -/
def distjules_sample (dist delta threshold : K) : Int :=
  if dist < delta then c_int_cast (dist / (threshold / 256)) else 0

/-- The token printed for one pixel (`"%d "` or `"0 "`). -/
def distjules_token (dist delta threshold : K) : String :=
  if dist < delta then toString (c_int_cast (dist / (threshold / 256))) ++ " " else "0 "

end Quantizer

/-! ## main of distps.c (lines 118-222): the image data on stdout -/

/-- What `printf ("%02x", data)` writes for `data >= 0`: the hexadecimal digits
of `data`, padded with `0` to at least two. -/
def printf_02x (data : Nat) : String :=
  String.mk (if (Nat.toDigits 16 data).length < 2 then '0' :: Nat.toDigits 16 data
    else Nat.toDigits 16 data)

/-- The part of the state of `main` of distps.c that the pixel loops change:
`linepos`, `power`, `data`, the global orbit buffers, and the characters written
to stdout after the preamble.  The C `int`s `power` (from 0 to 8) and `data`
(from 0 to 255) are natural numbers. -/
structure PsState (K : Type) where
  linepos : Int
  power : Nat
  data : Nat
  orb : Orbits K
  out : String

/-- The block `if (power == 8) { ... }` at the top of the inner loop body
(distps.c lines 201-209). -/
def distps_flush (st : PsState K) : PsState K :=
  if st.power = 8 then
    if st.linepos + 2 > 70 then
      { linepos := 0, power := 0, data := 0, orb := st.orb,
        out := st.out ++ printf_02x st.data ++ "\n" }
    else
      { linepos := st.linepos + 2, power := 0, data := 0, orb := st.orb,
        out := st.out ++ printf_02x st.data }
  else st

/-- The body of the inner loop `for (ix = 0; ix < width; ix++)` of distps.c
(lines 199-216); `power <= 7` when the shift `1 << (7 - power)` is computed. -/
def distps_pixel (logf sqrtf : K → K) (overflow delta : K) (vp : Viewport K)
    (width maxiter : Int) (cy : K) (st : PsState K) (ix : Nat) : PsState K :=
  let st1 := distps_flush st
  let cx := pixel_coord vp.xmin vp.xmax (ix : Int) width
  let dist := estimate_distance logf sqrtf overflow st1.orb cx cy maxiter
  { linepos := st1.linepos, power := st1.power + 1,
    data := if dist ≥ delta then st1.data ||| (1 <<< (7 - st1.power)) else st1.data,
    orb := estimate_distance_orbits st1.orb cx cy maxiter, out := st1.out }

/-- The body of the outer loop `for (iy = 0; iy < height; iy++)` of distps.c
(lines 186-218); the progress stars go to stderr. -/
def distps_row (logf sqrtf : K → K) (overflow delta : K) (vp : Viewport K)
    (width height maxiter : Int) (st : PsState K) (iy : Nat) : PsState K :=
  let cy := pixel_coord vp.ymin vp.ymax (iy : Int) height
  (List.range width.toNat).foldl (distps_pixel logf sqrtf overflow delta vp width maxiter cy) st

/-- The state of `main` of distps.c after the pixel loops. -/
def distps_loops (logf sqrtf : K → K) (powf : K → K → K) (orb0 : Orbits K)
    (x y range : K) (width height maxiter threshold : Int) : PsState K :=
  let vp := distps_viewport x y range width height
  let delta := mandel_delta threshold vp width
  let overflow := powf delta (-2)
  (List.range height.toNat).foldl
    (distps_row logf sqrtf overflow delta vp width height maxiter)
    { linepos := 0, power := 0, data := 0, orb := orb0, out := "" }

/-- The characters written to stdout by the pixel loops of distps.c and by the
final `printf ("%02x\nshowpage\n", data)`. -/
def distps_data (logf sqrtf : K → K) (powf : K → K → K) (orb0 : Orbits K)
    (x y range : K) (width height maxiter threshold : Int) : String :=
  (distps_loops logf sqrtf powf orb0 x y range width height maxiter threshold).out
    ++ printf_02x
        (distps_loops logf sqrtf powf orb0 x y range width height maxiter threshold).data
    ++ "\nshowpage\n"

/-- The characters written to stdout by `main` of distps.c; `preamble` stands
for the output of the five `printf` calls of lines 140-146 (which format
floating-point values), `malloc_ok` tells whether both `malloc` calls
succeeded. -/
def distps_main (logf sqrtf : K → K) (powf : K → K → K) (preamble : String)
    (malloc_ok : Bool) (orb0 : Orbits K) (x y range : K)
    (width height maxiter threshold : Int) : String :=
  if malloc_ok then
    preamble ++ distps_data logf sqrtf powf orb0 x y range width height maxiter threshold
  else preamble

/-- The value of `data` after the bits of the list have been or-ed in, most
significant first, starting at bit `7 - pw`. -/
def pack_bits : Nat → Nat → List Bool → Nat
  | _, data, [] => data
  | pw, data, b :: bs => pack_bits (pw + 1) (if b then data ||| (1 <<< (7 - pw)) else data) bs

/-- The bytes printed by distps.c for the pixel bits of the list (`true` for
`dist >= delta`), from the state `power = pw`, `data`. -/
def ps_bytes : Nat → Nat → List Bool → List Nat
  | _, data, [] => [data]
  | pw, data, b :: bs =>
    if pw = 8 then data :: ps_bytes 1 (if b then 0 ||| (1 <<< (7 - 0)) else 0) bs
    else ps_bytes (pw + 1) (if b then data ||| (1 <<< (7 - pw)) else data) bs

/-- The characters printed by distps.c for the pixel bits of the list, from the
state `linepos = lp`, `power = pw`, `data`, up to the end of the output. -/
def ps_layout : Int → Nat → Nat → List Bool → List Char
  | _, _, data, [] => (printf_02x data).data ++ ("\nshowpage\n").data
  | lp, pw, data, b :: bs =>
    if pw = 8 then
      if lp + 2 > 70 then
        (printf_02x data).data
          ++ '\n' :: ps_layout 0 1 (if b then 0 ||| (1 <<< (7 - 0)) else 0) bs
      else
        (printf_02x data).data
          ++ ps_layout (lp + 2) 1 (if b then 0 ||| (1 <<< (7 - 0)) else 0) bs
    else ps_layout lp (pw + 1) (if b then data ||| (1 <<< (7 - pw)) else data) bs

/-- The bytes of the first `m` groups of eight bits of a list. -/
def chunk_bytes : Nat → List Bool → List Nat
  | 0, _ => []
  | m + 1, bs => pack_bits 0 0 (bs.take 8) :: chunk_bytes m (bs.drop 8)

/-! # Theorems -/

/-! ## Generic facts about loops -/

section Loops

variable {σ : Type} (cond : σ → Prop) [DecidablePred cond] (body : σ → σ)

theorem while_loop_stop (fuel : Nat) (s : σ) (h : ¬ cond s) :
    while_loop cond body fuel s = s := by
  cases fuel with
  | zero => rfl
  | succ n => simp [while_loop, h]

theorem while_loop_run :
    ∀ (k fuel : Nat) (s : σ), (∀ j, j < k → cond (body^[j] s)) →
      while_loop cond body (k + fuel) s = while_loop cond body fuel (body^[k] s) := by
  intro k
  induction k with
  | zero => intro fuel s _; simp
  | succ k ih =>
    intro fuel s h
    have h0 : cond s := h 0 (Nat.succ_pos k)
    have hk : ∀ j, j < k → cond (body^[j] (body s)) := by
      intro j hj
      have := h (j + 1) (Nat.succ_lt_succ hj)
      simpa [Function.iterate_succ_apply] using this
    have e : k + 1 + fuel = (k + fuel) + 1 := by omega
    rw [e, while_loop, if_pos h0, ih fuel _ hk, Function.iterate_succ_apply]

/-- A bounded loop performs some number `n <= fuel` of passes, each of them
entered with the loop test true. -/
theorem while_loop_spec :
    ∀ (fuel : Nat) (s : σ), ∃ n : Nat, n ≤ fuel ∧
      while_loop cond body fuel s = body^[n] s ∧ (∀ j, j < n → cond (body^[j] s)) := by
  intro fuel
  induction fuel with
  | zero => intro s; exact ⟨0, le_refl _, rfl, fun j hj => absurd hj (Nat.not_lt_zero j)⟩
  | succ m ih =>
    intro s
    by_cases hc : cond s
    · obtain ⟨n, hle, hn, hall⟩ := ih (body s)
      refine ⟨n + 1, Nat.succ_le_succ hle, ?_, ?_⟩
      · rw [while_loop, if_pos hc, hn, Function.iterate_succ_apply]
      · intro j hj
        cases j with
        | zero => exact hc
        | succ j =>
          rw [Function.iterate_succ_apply]
          exact hall j (Nat.lt_of_succ_lt_succ hj)
    · exact ⟨0, Nat.zero_le _, by rw [while_loop, if_neg hc]; rfl,
        fun j hj => absurd hj (Nat.not_lt_zero j)⟩

/-- If every pass decreases a measure that bounds the fuel, the loop leaves
through its test: the test is false in the returned state. -/
theorem while_loop_exit (μ : σ → Nat) (hμ : ∀ s, cond s → μ (body s) < μ s) :
    ∀ (fuel : Nat) (s : σ), μ s ≤ fuel → ¬ cond (while_loop cond body fuel s) := by
  intro fuel
  induction fuel with
  | zero =>
    intro s h hc
    simp only [while_loop] at hc
    have := hμ s hc
    omega
  | succ n ih =>
    intro s h
    by_cases hc : cond s
    · rw [while_loop, if_pos hc]
      apply ih
      have := hμ s hc
      omega
    · rw [while_loop, if_neg hc]; exact hc

/-- The loop result is the `n`-th iterate of the body as soon as the test holds
on the first `n` iterates and fails on the `n`-th one. -/
theorem while_loop_eq_iterate (fuel n : Nat) (s : σ) (hn : n ≤ fuel)
    (hall : ∀ j, j < n → cond (body^[j] s)) (hstop : ¬ cond (body^[n] s)) :
    while_loop cond body fuel s = body^[n] s := by
  obtain ⟨f, hf⟩ : ∃ f, fuel = n + f := ⟨fuel - n, by omega⟩
  rw [hf, while_loop_run cond body n f s hall]
  exact while_loop_stop cond body f _ hstop

end Loops

/-! ## The forward loop -/

theorem fwd_final_exit (orb0 : Orbits K) (cx cy : K) (maxiter : Int) :
    ¬ fwd_cond maxiter (fwd_final orb0 cx cy maxiter) := by
  apply while_loop_exit (fwd_cond maxiter) (fwd_step cx cy)
    (fun s => (maxiter - (s.iter : Int)).toNat)
  · intro s hs
    have h1 := hs.1
    simp only [fwd_step]
    push_cast
    omega
  · simp [fwd_init]

/-- The forward loop performs some number `n` of passes, all of them with the
loop test true, and stops in a state where the test is false. -/
theorem fwd_final_spec (orb0 : Orbits K) (cx cy : K) (maxiter : Int) :
    ∃ n : Nat, fwd_final orb0 cx cy maxiter = (fwd_step cx cy)^[n] (fwd_init orb0) ∧
      (∀ j, j < n → fwd_cond maxiter ((fwd_step cx cy)^[j] (fwd_init orb0))) ∧
      ¬ fwd_cond maxiter ((fwd_step cx cy)^[n] (fwd_init orb0)) := by
  obtain ⟨n, _, hn, hall⟩ :=
    while_loop_spec (fwd_cond maxiter) (fwd_step cx cy) maxiter.toNat (fwd_init orb0)
  refine ⟨n, hn, hall, ?_⟩
  have := fwd_final_exit orb0 cx cy maxiter
  rw [fwd_final, fwd_loop, hn] at this
  exact this

/-- After `k` passes the locals hold the `k`-th point of the orbit. -/
theorem fwd_iterate_orbit (orb0 : Orbits K) (cx cy : K) (k : Nat) :
    ((fwd_step cx cy)^[k] (fwd_init orb0)).x = (orbit cx cy k).1 ∧
    ((fwd_step cx cy)^[k] (fwd_init orb0)).y = (orbit cx cy k).2 ∧
    ((fwd_step cx cy)^[k] (fwd_init orb0)).x2 = (orbit cx cy k).1 * (orbit cx cy k).1 ∧
    ((fwd_step cx cy)^[k] (fwd_init orb0)).y2 = (orbit cx cy k).2 * (orbit cx cy k).2 ∧
    ((fwd_step cx cy)^[k] (fwd_init orb0)).iter = k := by
  induction k with
  | zero => simp [fwd_init, orbit]
  | succ k ih =>
    obtain ⟨hx, hy, hx2, hy2, hi⟩ := ih
    rw [Function.iterate_succ_apply']
    simp only [fwd_step, orbit, hx, hy, hx2, hy2, hi]
    simp

theorem fwd_iterate_normSq (orb0 : Orbits K) (cx cy : K) (k : Nat) :
    ((fwd_step cx cy)^[k] (fwd_init orb0)).x2 + ((fwd_step cx cy)^[k] (fwd_init orb0)).y2
      = normSq2 (orbit cx cy k) := by
  obtain ⟨_, _, hx2, hy2, _⟩ := fwd_iterate_orbit orb0 cx cy k
  rw [hx2, hy2, normSq2]

/-- A bounded orbit keeps the forward loop running for all `maxiter` passes. -/
theorem fwd_final_bounded (orb0 : Orbits K) (cx cy : K) (maxiter : Int) (hm : 1 ≤ maxiter)
    (hb : ∀ n : Nat, 1 ≤ n → (n : Int) ≤ maxiter → normSq2 (orbit cx cy n) < 100000) :
    fwd_final orb0 cx cy maxiter = (fwd_step cx cy)^[maxiter.toNat] (fwd_init orb0) := by
  have hall : ∀ j, j < maxiter.toNat →
      fwd_cond maxiter ((fwd_step cx cy)^[j] (fwd_init orb0)) := by
    intro j hj
    refine ⟨?_, ?_⟩
    · rw [(fwd_iterate_orbit orb0 cx cy j).2.2.2.2]; omega
    · rw [fwd_iterate_normSq, huge]
      cases j with
      | zero => simp [orbit, normSq2]
      | succ j => exact hb (j + 1) (Nat.succ_pos j) (by omega)
  have := while_loop_run (fwd_cond maxiter) (fwd_step cx cy) maxiter.toNat 0 (fwd_init orb0) hall
  rw [Nat.add_zero] at this
  rw [fwd_final, fwd_loop, this]
  rfl

/-- C1 (amended): for every `maxiter >= 1` and every `c` whose orbit has
`|z_n|^2 < 100000` for all `n` in `1..maxiter`, the forward loop of
`estimate_distance` runs the full `maxiter` passes without escaping
(`x2 + y2 < huge` at exit) and `estimate_distance` returns `0`, the initial
value of `dist`, not the sentinel `huge`. -/
theorem estimate_distance_interior (logf sqrtf : K → K) (overflow : K) (orb0 : Orbits K)
    (cx cy : K) (maxiter : Int) (hm : 1 ≤ maxiter)
    (hb : ∀ n : Nat, 1 ≤ n → (n : Int) ≤ maxiter → normSq2 (orbit cx cy n) < 100000) :
    ((fwd_final orb0 cx cy maxiter).iter : Int) = maxiter ∧
    (fwd_final orb0 cx cy maxiter).x2 + (fwd_final orb0 cx cy maxiter).y2 < (huge : K) ∧
    estimate_distance logf sqrtf overflow orb0 cx cy maxiter = 0 := by
  have hf := fwd_final_bounded orb0 cx cy maxiter hm hb
  have hlt : (fwd_final orb0 cx cy maxiter).x2 + (fwd_final orb0 cx cy maxiter).y2
      < (huge : K) := by
    rw [hf, fwd_iterate_normSq, huge]
    exact hb maxiter.toNat (by omega) (by omega)
  refine ⟨?_, hlt, ?_⟩
  · rw [hf, (fwd_iterate_orbit orb0 cx cy maxiter.toNat).2.2.2.2]; omega
  · rw [estimate_distance, dist_of, if_neg (not_lt.mpr hlt.le)]

/-- Witness for C1 (amended) at `c = 0 + 0i`, `maxiter = 3`, over the reals. -/
theorem estimate_distance_interior_witness :
    ((fwd_final (Orbits.mk (fun _ => (0 : ℝ)) (fun _ => 0)) 0 0 3).iter : Int) = 3 ∧
    (fwd_final (Orbits.mk (fun _ => (0 : ℝ)) (fun _ => 0)) 0 0 3).x2
      + (fwd_final (Orbits.mk (fun _ => (0 : ℝ)) (fun _ => 0)) 0 0 3).y2 < (huge : ℝ) ∧
    estimate_distance Real.log Real.sqrt 1 (Orbits.mk (fun _ => (0 : ℝ)) (fun _ => 0)) 0 0 3
      = 0 :=
  estimate_distance_interior Real.log Real.sqrt 1 _ 0 0 3 (by decide) (by
    intro n h1 h3
    have hn : n = 1 ∨ n = 2 ∨ n = 3 := by omega
    rcases hn with h | h | h <;> subst h <;> norm_num [orbit, normSq2])

/-- C1 as stated fails: at `c = 0 + 0i`, `maxiter = 1` the orbit stays below the
escape bound, yet `estimate_distance` returns `0`, not `100000`. -/
theorem estimate_distance_interior_not_huge :
    (1 : Int) ≤ 1 ∧
    (∀ n : Nat, 1 ≤ n → (n : Int) ≤ 1 → normSq2 (orbit (0 : ℝ) 0 n) < 100000) ∧
    estimate_distance Real.log Real.sqrt 1 (Orbits.mk (fun _ => (0 : ℝ)) (fun _ => 0)) 0 0 1
      ≠ 100000 := by
  refine ⟨le_refl _, ?_, ?_⟩
  · intro n h1 h2
    have hn : n = 1 := by omega
    subst hn
    norm_num [orbit, normSq2]
  · have e : ((1 : Int)).toNat = 1 := rfl
    simp only [estimate_distance, fwd_final, e, fwd_loop, while_loop, fwd_cond, fwd_init,
      fwd_step, dist_of, huge]
    norm_num

/-! ## The replay loop -/

theorem replay_at_succ (overflow : K) (orb : Orbits K) (k : Nat) :
    replay_at overflow orb (k + 1) = replay_step overflow orb (replay_at overflow orb k) := by
  rw [replay_at, Function.iterate_succ_apply', replay_at]

theorem replay_at_i (overflow : K) (orb : Orbits K) (k : Nat) :
    (replay_at overflow orb k).i = k := by
  induction k with
  | zero => rfl
  | succ k ih => rw [replay_at_succ, replay_step, ih]

/-- The first replay pass always produces the derivative `(1, 0)`. -/
theorem replay_at_one (overflow : K) (orb : Orbits K) :
    (replay_at overflow orb 1).xder = 1 ∧ (replay_at overflow orb 1).yder = 0 := by
  simp [replay_at, replay_step, replay_init]

theorem replay_at_flag_of_exceeds (overflow : K) (orb : Orbits K) (k : Nat)
    (h : exceeds overflow (replay_at overflow orb (k + 1)).xder
      (replay_at overflow orb (k + 1)).yder) :
    (replay_at overflow orb (k + 1)).flag = true := by
  rw [replay_at_succ] at h ⊢
  simp only [replay_step] at h ⊢
  rw [if_pos h]

theorem replay_at_flag_false (overflow : K) (orb : Orbits K) (k : Nat)
    (h : ∀ j, j < k → ¬ exceeds overflow (replay_at overflow orb (j + 1)).xder
      (replay_at overflow orb (j + 1)).yder) :
    (replay_at overflow orb k).flag = false := by
  induction k with
  | zero => rfl
  | succ k ih =>
    have hk := h k (Nat.lt_succ_self k)
    have ih := ih (fun j hj => h j (Nat.lt_succ_of_lt hj))
    rw [replay_at_succ] at hk ⊢
    simp only [replay_step] at hk ⊢
    rw [if_neg hk, ih]

theorem replay_final_exit (overflow : K) (s : FwdState K) :
    ¬ replay_cond s.iter (replay_final overflow s) := by
  apply while_loop_exit (replay_cond s.iter) (replay_step overflow s.orb)
    (fun r => ((s.iter : Int) - 1 - (r.i : Int)).toNat)
  · intro r hr
    have h1 := hr.1
    simp only [replay_step]
    push_cast
    omega
  · simp only [replay_init]
    omega

/-- The replay loop performs `n` passes with its test true and stops where the
test is false. -/
theorem replay_final_spec (overflow : K) (s : FwdState K) :
    ∃ n : Nat, replay_final overflow s = replay_at overflow s.orb n ∧
      (∀ j, j < n → replay_cond s.iter (replay_at overflow s.orb j)) ∧
      ¬ replay_cond s.iter (replay_at overflow s.orb n) := by
  obtain ⟨n, _, hn, hall⟩ :=
    while_loop_spec (replay_cond s.iter) (replay_step overflow s.orb) s.iter replay_init
  refine ⟨n, hn, hall, ?_⟩
  have := replay_final_exit overflow s
  rw [replay_final, replay_loop, hn] at this
  exact this

/-- If the first pass whose result exceeds the bound is pass `i0`, and that
pass is within the loop range, the replay loop stops right after it. -/
theorem replay_final_first_exceeds (overflow : K) (s : FwdState K) (i0 : Nat)
    (hi : (i0 : Int) < (s.iter : Int) - 1)
    (hex : exceeds overflow (replay_at overflow s.orb (i0 + 1)).xder
      (replay_at overflow s.orb (i0 + 1)).yder)
    (hfirst : ∀ j, j < i0 → ¬ exceeds overflow (replay_at overflow s.orb (j + 1)).xder
      (replay_at overflow s.orb (j + 1)).yder) :
    replay_final overflow s = replay_at overflow s.orb (i0 + 1) := by
  have hall : ∀ j, j < i0 + 1 →
      replay_cond s.iter ((replay_step overflow s.orb)^[j] replay_init) := by
    intro j hj
    refine ⟨?_, ?_⟩
    · have := replay_at_i overflow s.orb j
      rw [replay_at] at this
      rw [this]; omega
    · exact replay_at_flag_false overflow s.orb j
        (fun l hl => hfirst l (by omega))
  obtain ⟨f, hfuel⟩ : ∃ f, s.iter = (i0 + 1) + f := ⟨s.iter - (i0 + 1), by omega⟩
  have hrun := while_loop_run (replay_cond s.iter) (replay_step overflow s.orb) (i0 + 1) f
    replay_init hall
  rw [← hfuel] at hrun
  rw [replay_final, replay_loop, hrun]
  apply while_loop_stop
  intro hc
  have hflag := replay_at_flag_of_exceeds overflow s.orb i0 hex
  rw [replay_at] at hflag
  have h2 := hc.2
  rw [hflag] at h2
  exact absurd h2 (by simp)

/-- With no pass in the loop range (`iter <= 1`) the replay loop does nothing. -/
theorem replay_final_of_iter_le_one (overflow : K) (s : FwdState K) (h : s.iter ≤ 1) :
    replay_final overflow s = replay_init := by
  rw [replay_final, replay_loop]
  apply while_loop_stop
  intro hc
  have := hc.1
  simp only [replay_init] at this
  omega

/-- Among the passes whose result exceeds the bound there is a first one. -/
theorem replay_first_exceeds (overflow : K) (orb : Orbits K) (i : Nat)
    (hex : exceeds overflow (replay_at overflow orb (i + 1)).xder
      (replay_at overflow orb (i + 1)).yder) :
    ∃ i0 : Nat, i0 ≤ i ∧
      exceeds overflow (replay_at overflow orb (i0 + 1)).xder
        (replay_at overflow orb (i0 + 1)).yder ∧
      ∀ j, j < i0 → ¬ exceeds overflow (replay_at overflow orb (j + 1)).xder
        (replay_at overflow orb (j + 1)).yder := by
  have hP : ∃ j, exceeds overflow (replay_at overflow orb (j + 1)).xder
      (replay_at overflow orb (j + 1)).yder := ⟨i, hex⟩
  exact ⟨Nat.find hP, Nat.find_min' hP hex, Nat.find_spec hP, fun j hj => Nat.find_min hP hj⟩

/-- The overflow path at the level of the forward exit state. -/
theorem dist_of_overflow (logf sqrtf : K → K) (overflow : K) (s : FwdState K)
    (hesc : s.x2 + s.y2 > (huge : K)) (i : Nat) (hi : (i : Int) < (s.iter : Int) - 1)
    (hex : exceeds overflow (replay_at overflow s.orb (i + 1)).xder
      (replay_at overflow s.orb (i + 1)).yder) :
    ∃ i0 : Nat, i0 ≤ i ∧
      exceeds overflow (replay_at overflow s.orb (i0 + 1)).xder
        (replay_at overflow s.orb (i0 + 1)).yder ∧
      (∀ j, j < i0 → ¬ exceeds overflow (replay_at overflow s.orb (j + 1)).xder
        (replay_at overflow s.orb (j + 1)).yder) ∧
      replay_final overflow s = replay_at overflow s.orb (i0 + 1) ∧
      (replay_final overflow s).flag = true ∧
      (replay_final overflow s).i = i0 + 1 ∧
      dist_of logf sqrtf overflow s = huge := by
  obtain ⟨i0, hle, hex0, hfirst⟩ := replay_first_exceeds overflow s.orb i hex
  have hfin := replay_final_first_exceeds overflow s i0 (by omega) hex0 hfirst
  have hflag : (replay_final overflow s).flag = true := by
    rw [hfin]; exact replay_at_flag_of_exceeds overflow s.orb i0 hex0
  refine ⟨i0, hle, hex0, hfirst, hfin, hflag, ?_, ?_⟩
  · rw [hfin, replay_at_i]
  · rw [dist_of, if_pos hesc]
    simp [hflag]

/-- C2: in `estimate_distance`, when the orbit escapes (`x2 + y2 > huge` at
exit of the forward loop) and the derivative updated at some replay pass
`i < iter - 1` exceeds `overflow` in `|xder|` or `|yder|`, the replay loop stops
right after the first such pass `i0` (flag set, `i = i0 + 1`) and the function
returns the sentinel `huge`; the first replay pass always yields
`(xder, yder) = (1, 0)`, so with `overflow < 1` every point escaping with
`iter >= 2` returns the sentinel. -/
theorem estimate_distance_overflow_sentinel (logf sqrtf : K → K) (overflow : K)
    (orb0 : Orbits K) (cx cy : K) (maxiter : Int)
    (hesc : (fwd_final orb0 cx cy maxiter).x2 + (fwd_final orb0 cx cy maxiter).y2
      > (huge : K)) :
    (∀ i : Nat, (i : Int) < ((fwd_final orb0 cx cy maxiter).iter : Int) - 1 →
      exceeds overflow (replay_at overflow (fwd_final orb0 cx cy maxiter).orb (i + 1)).xder
        (replay_at overflow (fwd_final orb0 cx cy maxiter).orb (i + 1)).yder →
      ∃ i0 : Nat, i0 ≤ i ∧
        exceeds overflow (replay_at overflow (fwd_final orb0 cx cy maxiter).orb (i0 + 1)).xder
          (replay_at overflow (fwd_final orb0 cx cy maxiter).orb (i0 + 1)).yder ∧
        (∀ j, j < i0 →
          ¬ exceeds overflow (replay_at overflow (fwd_final orb0 cx cy maxiter).orb (j + 1)).xder
            (replay_at overflow (fwd_final orb0 cx cy maxiter).orb (j + 1)).yder) ∧
        replay_final overflow (fwd_final orb0 cx cy maxiter)
          = replay_at overflow (fwd_final orb0 cx cy maxiter).orb (i0 + 1) ∧
        (replay_final overflow (fwd_final orb0 cx cy maxiter)).flag = true ∧
        (replay_final overflow (fwd_final orb0 cx cy maxiter)).i = i0 + 1 ∧
        estimate_distance logf sqrtf overflow orb0 cx cy maxiter = huge) ∧
    ((replay_at overflow (fwd_final orb0 cx cy maxiter).orb 1).xder = 1 ∧
      (replay_at overflow (fwd_final orb0 cx cy maxiter).orb 1).yder = 0) ∧
    (overflow < 1 → 2 ≤ (fwd_final orb0 cx cy maxiter).iter →
      estimate_distance logf sqrtf overflow orb0 cx cy maxiter = huge) := by
  refine ⟨?_, replay_at_one overflow _, ?_⟩
  · intro i hi hex
    exact dist_of_overflow logf sqrtf overflow (fwd_final orb0 cx cy maxiter) hesc i hi hex
  · intro hov h2
    have h1 := replay_at_one overflow (fwd_final orb0 cx cy maxiter).orb
    have hex : exceeds overflow (replay_at overflow (fwd_final orb0 cx cy maxiter).orb (0 + 1)).xder
        (replay_at overflow (fwd_final orb0 cx cy maxiter).orb (0 + 1)).yder := by
      left
      rw [Nat.zero_add, h1.1, abs_one]
      exact hov
    obtain ⟨_, _, _, _, _, _, _, hd⟩ :=
      dist_of_overflow logf sqrtf overflow (fwd_final orb0 cx cy maxiter) hesc 0
        (by push_cast; omega) hex
    exact hd

/-- Witness for C2: `c = 100 + 0i` escapes with `iter = 2`; with
`overflow = 1/2` the first replay pass already exceeds the bound. -/
theorem estimate_distance_overflow_sentinel_witness :
    (fwd_final zero_orbits (100 : ℝ) 0 5).x2 + (fwd_final zero_orbits (100 : ℝ) 0 5).y2
      > (huge : ℝ) ∧
    (fwd_final zero_orbits (100 : ℝ) 0 5).iter = 2 ∧
    estimate_distance Real.log Real.sqrt (1 / 2) zero_orbits (100 : ℝ) 0 5 = huge := by
  have e : ((5 : Int)).toNat = 5 := rfl
  have hesc : (fwd_final zero_orbits (100 : ℝ) 0 5).x2 + (fwd_final zero_orbits (100 : ℝ) 0 5).y2
      > (huge : ℝ) := by
    norm_num [fwd_final, e, fwd_loop, while_loop, fwd_cond, fwd_init, fwd_step, huge]
  have hiter : (fwd_final zero_orbits (100 : ℝ) 0 5).iter = 2 := by
    norm_num [fwd_final, e, fwd_loop, while_loop, fwd_cond, fwd_init, fwd_step, huge]
  exact ⟨hesc, hiter,
    (estimate_distance_overflow_sentinel Real.log Real.sqrt (1 / 2) zero_orbits 100 0 5 hesc).2.2
      (by norm_num) (le_of_eq hiter.symm)⟩

/-! ## The distance formula -/

/-- When the orbit escaped and the replay was not aborted, `dist` is the value
of the distance formula. -/
theorem dist_of_formula (logf sqrtf : K → K) (overflow : K) (s : FwdState K)
    (hesc : s.x2 + s.y2 > (huge : K)) (hflag : (replay_final overflow s).flag = false) :
    dist_of logf sqrtf overflow s
      = logf (s.x2 + s.y2) * sqrtf (s.x2 + s.y2)
        / sqrtf ((replay_final overflow s).xder * (replay_final overflow s).xder
          + (replay_final overflow s).yder * (replay_final overflow s).yder) := by
  rw [dist_of, if_pos hesc]
  simp [hflag]

/-- With `iter = 2` and no abort the replay loop makes exactly one pass. -/
theorem replay_final_of_iter_two (overflow : K) (s : FwdState K) (h : s.iter = 2) :
    replay_final overflow s = replay_at overflow s.orb 1 := by
  obtain ⟨n, hn, hall, hstop⟩ := replay_final_spec overflow s
  have hle : n ≤ 1 := by
    by_contra hgt
    have hc := (hall (n - 1) (by omega)).1
    rw [replay_at_i, h] at hc
    push_cast at hc
    omega
  have hne : n ≠ 0 := by
    intro h0
    subst h0
    apply hstop
    refine ⟨?_, rfl⟩
    rw [replay_at_i, h]
    decide
  have h1 : n = 1 := by omega
  rw [hn, h1]

theorem escape_numerator_pos (v : ℝ) (hv : v > (huge : ℝ)) :
    0 < Real.log v * Real.sqrt v := by
  rw [huge] at hv
  have h1 : (1 : ℝ) < v := by linarith
  exact mul_pos (Real.log_pos h1) (Real.sqrt_pos.mpr (by linarith))

/-- Facts about the distance formula when `estimate_distance` evaluates it
(escape with `x2 + y2 > huge`, replay not aborted): the numerator
`log (x2 + y2) * sqrt (x2 + y2)` is strictly positive; the divisor
`sqrt (xder^2 + yder^2)` is `0` when `iter = 1` and `1` when `iter = 2`; and a
replayed derivative other than `(0, 0)` gives a non-zero divisor and a strictly
positive distance. -/
theorem estimate_distance_formula_divisor (overflow : ℝ) (orb0 : Orbits ℝ) (cx cy : ℝ)
    (maxiter : Int)
    (hesc : (fwd_final orb0 cx cy maxiter).x2 + (fwd_final orb0 cx cy maxiter).y2
      > (huge : ℝ))
    (hflag : (replay_final overflow (fwd_final orb0 cx cy maxiter)).flag = false) :
    estimate_distance Real.log Real.sqrt overflow orb0 cx cy maxiter
      = Real.log ((fwd_final orb0 cx cy maxiter).x2 + (fwd_final orb0 cx cy maxiter).y2)
        * Real.sqrt ((fwd_final orb0 cx cy maxiter).x2 + (fwd_final orb0 cx cy maxiter).y2)
        / Real.sqrt
          ((replay_final overflow (fwd_final orb0 cx cy maxiter)).xder
              * (replay_final overflow (fwd_final orb0 cx cy maxiter)).xder
            + (replay_final overflow (fwd_final orb0 cx cy maxiter)).yder
              * (replay_final overflow (fwd_final orb0 cx cy maxiter)).yder) ∧
    0 < Real.log ((fwd_final orb0 cx cy maxiter).x2 + (fwd_final orb0 cx cy maxiter).y2)
        * Real.sqrt ((fwd_final orb0 cx cy maxiter).x2 + (fwd_final orb0 cx cy maxiter).y2) ∧
    ((fwd_final orb0 cx cy maxiter).iter = 1 →
      (replay_final overflow (fwd_final orb0 cx cy maxiter)).xder = 0 ∧
      (replay_final overflow (fwd_final orb0 cx cy maxiter)).yder = 0 ∧
      Real.sqrt
          ((replay_final overflow (fwd_final orb0 cx cy maxiter)).xder
              * (replay_final overflow (fwd_final orb0 cx cy maxiter)).xder
            + (replay_final overflow (fwd_final orb0 cx cy maxiter)).yder
              * (replay_final overflow (fwd_final orb0 cx cy maxiter)).yder) = 0) ∧
    ((fwd_final orb0 cx cy maxiter).iter = 2 →
      Real.sqrt
          ((replay_final overflow (fwd_final orb0 cx cy maxiter)).xder
              * (replay_final overflow (fwd_final orb0 cx cy maxiter)).xder
            + (replay_final overflow (fwd_final orb0 cx cy maxiter)).yder
              * (replay_final overflow (fwd_final orb0 cx cy maxiter)).yder) = 1) ∧
    ((replay_final overflow (fwd_final orb0 cx cy maxiter)).xder ≠ 0 ∨
        (replay_final overflow (fwd_final orb0 cx cy maxiter)).yder ≠ 0 →
      Real.sqrt
          ((replay_final overflow (fwd_final orb0 cx cy maxiter)).xder
              * (replay_final overflow (fwd_final orb0 cx cy maxiter)).xder
            + (replay_final overflow (fwd_final orb0 cx cy maxiter)).yder
              * (replay_final overflow (fwd_final orb0 cx cy maxiter)).yder) ≠ 0 ∧
      0 < estimate_distance Real.log Real.sqrt overflow orb0 cx cy maxiter) := by
  have hform := dist_of_formula Real.log Real.sqrt overflow (fwd_final orb0 cx cy maxiter)
    hesc hflag
  have hnum := escape_numerator_pos _ hesc
  refine ⟨hform, hnum, ?_, ?_, ?_⟩
  · intro h1
    rw [replay_final_of_iter_le_one overflow _ (le_of_eq h1)]
    simp [replay_init]
  · intro h2
    rw [replay_final_of_iter_two overflow _ h2]
    have h1 := replay_at_one overflow (fwd_final orb0 cx cy maxiter).orb
    rw [h1.1, h1.2]
    simp
  · intro hne
    have hpos : 0 < (replay_final overflow (fwd_final orb0 cx cy maxiter)).xder
          * (replay_final overflow (fwd_final orb0 cx cy maxiter)).xder
        + (replay_final overflow (fwd_final orb0 cx cy maxiter)).yder
          * (replay_final overflow (fwd_final orb0 cx cy maxiter)).yder := by
      rcases hne with h | h
      · have := mul_self_pos.mpr h
        have := mul_self_nonneg (replay_final overflow (fwd_final orb0 cx cy maxiter)).yder
        linarith
      · have := mul_self_pos.mpr h
        have := mul_self_nonneg (replay_final overflow (fwd_final orb0 cx cy maxiter)).xder
        linarith
    have hs := Real.sqrt_pos.mpr hpos
    refine ⟨ne_of_gt hs, ?_⟩
    rw [estimate_distance, hform]
    exact div_pos hnum hs

/-- C3 (evaluation at the failing input): for `distpbm 1000 0 0.02 3 3 5 1` the
centre pixel has `c = 1000 + 0i` and `overflow = delta^-2 = 10000`; the orbit
escapes at the first pass (`iter = 1`, `x2 + y2 = 1000000 > huge`), the replay
loop `i < iter - 1` makes no pass and is not aborted, so `xder = yder = 0` and
`estimate_distance` evaluates the distance formula with the divisor
`sqrt (0 * 0 + 0 * 0) = 0`; the derivative of the escaped iterate,
`dz_1/dc`, is `(1, 0)`. -/
theorem estimate_distance_first_pass_escape :
    pixel_coord (distpbm_viewport (1000 : ℝ) 0 0.02 3 3).xmin
      (distpbm_viewport (1000 : ℝ) 0 0.02 3 3).xmax 1 3 = 1000 ∧
    pixel_coord (distpbm_viewport (1000 : ℝ) 0 0.02 3 3).ymin
      (distpbm_viewport (1000 : ℝ) 0 0.02 3 3).ymax 1 3 = 0 ∧
    (distpbm_delta (1000 : ℝ) 0 0.02 3 3 1) ^ (-2 : Int) = 10000 ∧
    (fwd_final zero_orbits (1000 : ℝ) 0 5).iter = 1 ∧
    (fwd_final zero_orbits (1000 : ℝ) 0 5).x2 + (fwd_final zero_orbits (1000 : ℝ) 0 5).y2
      = 1000000 ∧
    (fwd_final zero_orbits (1000 : ℝ) 0 5).x2 + (fwd_final zero_orbits (1000 : ℝ) 0 5).y2
      > (huge : ℝ) ∧
    replay_reads (10000 : ℝ) (fwd_final zero_orbits (1000 : ℝ) 0 5) = [] ∧
    (replay_final 10000 (fwd_final zero_orbits (1000 : ℝ) 0 5)).flag = false ∧
    (replay_final 10000 (fwd_final zero_orbits (1000 : ℝ) 0 5)).xder = 0 ∧
    (replay_final 10000 (fwd_final zero_orbits (1000 : ℝ) 0 5)).yder = 0 ∧
    Real.sqrt
      ((replay_final 10000 (fwd_final zero_orbits (1000 : ℝ) 0 5)).xder
          * (replay_final 10000 (fwd_final zero_orbits (1000 : ℝ) 0 5)).xder
        + (replay_final 10000 (fwd_final zero_orbits (1000 : ℝ) 0 5)).yder
          * (replay_final 10000 (fwd_final zero_orbits (1000 : ℝ) 0 5)).yder) = 0 ∧
    estimate_distance Real.log Real.sqrt 10000 zero_orbits (1000 : ℝ) 0 5
      = Real.log 1000000 * Real.sqrt 1000000 / Real.sqrt (0 * 0 + 0 * 0) ∧
    dorbit (1000 : ℝ) 0 1 = (1, 0) := by
  have e : ((5 : Int)).toNat = 5 := rfl
  have p1 : pixel_coord (distpbm_viewport (1000 : ℝ) 0 0.02 3 3).xmin
      (distpbm_viewport (1000 : ℝ) 0 0.02 3 3).xmax 1 3 = 1000 := by
    norm_num [pixel_coord, distpbm_viewport, distpbm_width_half]
  have p2 : pixel_coord (distpbm_viewport (1000 : ℝ) 0 0.02 3 3).ymin
      (distpbm_viewport (1000 : ℝ) 0 0.02 3 3).ymax 1 3 = 0 := by
    norm_num [pixel_coord, distpbm_viewport, distpbm_height_half]
  have p3 : (distpbm_delta (1000 : ℝ) 0 0.02 3 3 1) ^ (-2 : Int) = 10000 := by
    have hd : distpbm_delta (1000 : ℝ) 0 0.02 3 3 1 = 1 / 100 := by
      norm_num [distpbm_delta, mandel_delta, distpbm_viewport, distpbm_width_half]
    rw [hd]
    norm_num
  have h1 : (fwd_final zero_orbits (1000 : ℝ) 0 5).iter = 1 := by
    norm_num [fwd_final, e, fwd_loop, while_loop, fwd_cond, fwd_init, fwd_step, huge]
  have h2 : (fwd_final zero_orbits (1000 : ℝ) 0 5).x2
      + (fwd_final zero_orbits (1000 : ℝ) 0 5).y2 = 1000000 := by
    norm_num [fwd_final, e, fwd_loop, while_loop, fwd_cond, fwd_init, fwd_step, huge]
  have h3 : (fwd_final zero_orbits (1000 : ℝ) 0 5).x2
      + (fwd_final zero_orbits (1000 : ℝ) 0 5).y2 > (huge : ℝ) := by
    rw [h2, huge]; norm_num
  have hrep : replay_final (10000 : ℝ) (fwd_final zero_orbits (1000 : ℝ) 0 5) = replay_init :=
    replay_final_of_iter_le_one _ _ (le_of_eq h1)
  have hreads : replay_reads (10000 : ℝ) (fwd_final zero_orbits (1000 : ℝ) 0 5) = [] := by
    rw [replay_reads, h1]
    simp [while_trace, replay_cond, replay_init]
  have hflag : (replay_final 10000 (fwd_final zero_orbits (1000 : ℝ) 0 5)).flag = false := by
    rw [hrep]; rfl
  have hx : (replay_final 10000 (fwd_final zero_orbits (1000 : ℝ) 0 5)).xder = 0 := by
    rw [hrep]; rfl
  have hy : (replay_final 10000 (fwd_final zero_orbits (1000 : ℝ) 0 5)).yder = 0 := by
    rw [hrep]; rfl
  have hdist : estimate_distance Real.log Real.sqrt 10000 zero_orbits (1000 : ℝ) 0 5
      = Real.log 1000000 * Real.sqrt 1000000 / Real.sqrt (0 * 0 + 0 * 0) := by
    rw [estimate_distance, dist_of_formula Real.log Real.sqrt 10000 _ h3 hflag, h2, hx, hy]
  refine ⟨p1, p2, p3, h1, h2, h3, hreads, hflag, hx, hy, ?_, hdist, ?_⟩
  · rw [hx, hy]; simp
  · norm_num [dorbit, orbit]

/-! ## Viewport -/

/-- C4: for `width >= 2` and `height >= 2` the interpolated coordinate of pixel
`0` is the lower bound and that of pixel `dimension - 1` is the upper bound, in
both directions, for any bounds (so for the viewports of all three programs). -/
theorem pixel_coord_endpoints (vp : Viewport K) (width height : Int)
    (hw : 2 ≤ width) (hh : 2 ≤ height) :
    pixel_coord vp.xmin vp.xmax 0 width = vp.xmin ∧
    pixel_coord vp.xmin vp.xmax (width - 1) width = vp.xmax ∧
    pixel_coord vp.ymin vp.ymax 0 height = vp.ymin ∧
    pixel_coord vp.ymin vp.ymax (height - 1) height = vp.ymax := by
  have hw0 : (width : K) - 1 ≠ 0 := by
    have : (width - 1 : Int) ≠ 0 := by omega
    exact_mod_cast this
  have hh0 : (height : K) - 1 ≠ 0 := by
    have : (height - 1 : Int) ≠ 0 := by omega
    exact_mod_cast this
  refine ⟨?_, ?_, ?_, ?_⟩
  · simp [pixel_coord]
  · rw [pixel_coord]; push_cast; field_simp
  · simp [pixel_coord]
  · rw [pixel_coord]; push_cast; field_simp

/-- Witness for C4 on the view of distpbm.c for a 64 x 48 image. -/
theorem pixel_coord_endpoints_witness :
    pixel_coord (distpbm_viewport (0 : ℝ) 0 1 64 48).xmin
      (distpbm_viewport (0 : ℝ) 0 1 64 48).xmax 0 64
      = (distpbm_viewport (0 : ℝ) 0 1 64 48).xmin ∧
    pixel_coord (distpbm_viewport (0 : ℝ) 0 1 64 48).xmin
      (distpbm_viewport (0 : ℝ) 0 1 64 48).xmax (64 - 1) 64
      = (distpbm_viewport (0 : ℝ) 0 1 64 48).xmax ∧
    pixel_coord (distpbm_viewport (0 : ℝ) 0 1 64 48).ymin
      (distpbm_viewport (0 : ℝ) 0 1 64 48).ymax 0 48
      = (distpbm_viewport (0 : ℝ) 0 1 64 48).ymin ∧
    pixel_coord (distpbm_viewport (0 : ℝ) 0 1 64 48).ymin
      (distpbm_viewport (0 : ℝ) 0 1 64 48).ymax (48 - 1) 48
      = (distpbm_viewport (0 : ℝ) 0 1 64 48).ymax :=
  pixel_coord_endpoints (distpbm_viewport (0 : ℝ) 0 1 64 48) 64 48 (by decide) (by decide)

/-- C5: in distpbm.c and distjules.c, for `width >= 1`, `height >= 1` and
`range > 0`, the half-extents are `(range/2, range*(height/width)/2)` when
`width > height` and `(range*(width/height)/2, range/2)` otherwise, the bounds are
`x - width_half`, `x + width_half`, `y - height_half`, `y + height_half`, the
extents are in the ratio `width : height`, and the larger extent is `range`. -/
theorem distpbm_viewport_aspect (x y range : K) (width height : Int)
    (hw : 1 ≤ width) (hh : 1 ≤ height) (hr : 0 < range) :
    (width > height →
      distpbm_width_half range width height = range / 2 ∧
      distpbm_height_half range width height = range * ((height : K) / (width : K)) / 2) ∧
    (¬ width > height →
      distpbm_width_half range width height = range * ((width : K) / (height : K)) / 2 ∧
      distpbm_height_half range width height = range / 2) ∧
    (distpbm_viewport x y range width height).xmin
      = x - distpbm_width_half range width height ∧
    (distpbm_viewport x y range width height).xmax
      = x + distpbm_width_half range width height ∧
    (distpbm_viewport x y range width height).ymin
      = y - distpbm_height_half range width height ∧
    (distpbm_viewport x y range width height).ymax
      = y + distpbm_height_half range width height ∧
    ((distpbm_viewport x y range width height).xmax
        - (distpbm_viewport x y range width height).xmin) * (height : K)
      = ((distpbm_viewport x y range width height).ymax
        - (distpbm_viewport x y range width height).ymin) * (width : K) ∧
    max ((distpbm_viewport x y range width height).xmax
        - (distpbm_viewport x y range width height).xmin)
      ((distpbm_viewport x y range width height).ymax
        - (distpbm_viewport x y range width height).ymin) = range ∧
    distjules_width_half range width height = distpbm_width_half range width height ∧
    distjules_height_half range width height = distpbm_height_half range width height ∧
    distjules_viewport x y range width height = distpbm_viewport x y range width height := by
  have hwK : (0 : K) < (width : K) := by exact_mod_cast (show (0 : Int) < width by omega)
  have hhK : (0 : K) < (height : K) := by exact_mod_cast (show (0 : Int) < height by omega)
  refine ⟨?_, ?_, rfl, rfl, rfl, rfl, ?_, ?_, rfl, rfl, rfl⟩
  · intro h; simp [distpbm_width_half, distpbm_height_half, h]
  · intro h; simp [distpbm_width_half, distpbm_height_half, h]
  · by_cases h : width > height
    · simp only [distpbm_viewport, distpbm_width_half, distpbm_height_half, if_pos h]
      field_simp
      ring
    · simp only [distpbm_viewport, distpbm_width_half, distpbm_height_half, if_neg h]
      field_simp
      ring
  · by_cases h : width > height
    · simp only [distpbm_viewport, distpbm_width_half, distpbm_height_half, if_pos h]
      have hlt : (height : K) < (width : K) := by exact_mod_cast h
      have hq : (height : K) / (width : K) ≤ 1 := (div_le_one hwK).mpr hlt.le
      have e : x + range / 2 - (x - range / 2) = range := by ring
      rw [e]
      apply max_eq_left
      nlinarith
    · simp only [distpbm_viewport, distpbm_width_half, distpbm_height_half, if_neg h]
      have hle : (width : K) ≤ (height : K) := by exact_mod_cast (not_lt.mp h)
      have hq : (width : K) / (height : K) ≤ 1 := (div_le_one hhK).mpr hle
      have e2 : y + range / 2 - (y - range / 2) = range := by ring
      rw [e2]
      apply max_eq_right
      nlinarith

/-- Witness for C5: a 640 x 480 view of range 3 around the origin. -/
theorem distpbm_viewport_aspect_witness :
    max ((distpbm_viewport (0 : ℝ) 0 3 640 480).xmax
        - (distpbm_viewport (0 : ℝ) 0 3 640 480).xmin)
      ((distpbm_viewport (0 : ℝ) 0 3 640 480).ymax
        - (distpbm_viewport (0 : ℝ) 0 3 640 480).ymin) = 3 :=
  (distpbm_viewport_aspect (0 : ℝ) 0 3 640 480 (by decide) (by decide)
    (by norm_num)).2.2.2.2.2.2.2.1

/-- C6: in each of the three programs, for `width = height >= 1` both
half-extents are `range / 2` and the view is the square
`[x - range/2, x + range/2] x [y - range/2, y + range/2]`. -/
theorem square_viewport (x y range : K) (w : Int) (hw : 1 ≤ w) :
    (distpbm_width_half range w w = range / 2 ∧ distpbm_height_half range w w = range / 2 ∧
      distpbm_viewport x y range w w
        = { xmin := x - range / 2, ymin := y - range / 2,
            xmax := x + range / 2, ymax := y + range / 2 }) ∧
    (distjules_width_half range w w = range / 2 ∧
      distjules_height_half range w w = range / 2 ∧
      distjules_viewport x y range w w
        = { xmin := x - range / 2, ymin := y - range / 2,
            xmax := x + range / 2, ymax := y + range / 2 }) ∧
    (distps_width_half range w w = range / 2 ∧ distps_height_half range w w = range / 2 ∧
      distps_viewport x y range w w
        = { xmin := x - range / 2, ymin := y - range / 2,
            xmax := x + range / 2, ymax := y + range / 2 }) := by
  have hwK : (w : K) ≠ 0 := by exact_mod_cast (show w ≠ 0 by omega)
  have hdiv : Int.tdiv w w = 1 := Int.tdiv_self (by omega)
  have a1 : distpbm_width_half range w w = range / 2 := by
    simp [distpbm_width_half, div_self hwK]
  have a2 : distpbm_height_half range w w = range / 2 := by
    simp [distpbm_height_half]
  have b1 : distjules_width_half range w w = range / 2 := by
    simp [distjules_width_half, div_self hwK]
  have b2 : distjules_height_half range w w = range / 2 := by
    simp [distjules_height_half]
  have c1 : distps_width_half range w w = range / 2 := by
    simp [distps_width_half, hdiv]
  have c2 : distps_height_half range w w = range / 2 := by
    simp [distps_height_half]
  refine ⟨⟨a1, a2, ?_⟩, ⟨b1, b2, ?_⟩, ⟨c1, c2, ?_⟩⟩
  · rw [distpbm_viewport, a1, a2]
  · rw [distjules_viewport, b1, b2]
  · rw [distps_viewport, c1, c2]

/-- Witness for C6: the 64 x 64 view of the end-to-end scenario in distps.c. -/
theorem square_viewport_witness :
    distps_viewport (-0.8 : ℝ) (-0.1671) 0.01 64 64
      = { xmin := -0.8 - 0.01 / 2, ymin := -0.1671 - 0.01 / 2,
          xmax := -0.8 + 0.01 / 2, ymax := -0.1671 + 0.01 / 2 } :=
  (square_viewport (-0.8 : ℝ) (-0.1671) 0.01 64 (by decide)).2.2.2.2

/-! ## The threshold `delta` -/

/-- The step between the coordinates of neighbouring pixels. -/
theorem pixel_coord_step (lo hi : K) (ix dimension : Int) :
    pixel_coord lo hi (ix + 1) dimension - pixel_coord lo hi ix dimension
      = (hi - lo) / ((dimension - 1 : Int) : K) := by
  simp only [pixel_coord]
  push_cast
  ring

/-- C7 (amended): in distpbm.c and distps.c, for `width >= 2`, `delta` is the
pixel threshold times the step between neighbouring pixel coordinates,
`threshold * (xmax - xmin) / (width - 1)`, with the bounds of that program's own
viewport; in distjules.c `delta = threshold * range / width`, which for
`width > height` is `threshold * (xmax - xmin) / width`. -/
theorem delta_pixel_units (x y range : K) (width height threshold : Int) (thr : K)
    (ix : Int) (hw : 2 ≤ width) :
    (distpbm_delta x y range width height threshold
        = (threshold : K)
          * (pixel_coord (distpbm_viewport x y range width height).xmin
              (distpbm_viewport x y range width height).xmax (ix + 1) width
            - pixel_coord (distpbm_viewport x y range width height).xmin
              (distpbm_viewport x y range width height).xmax ix width) ∧
      distpbm_delta x y range width height threshold
        = (threshold : K)
          * ((distpbm_viewport x y range width height).xmax
            - (distpbm_viewport x y range width height).xmin) / ((width : K) - 1)) ∧
    (distps_delta x y range width height threshold
        = (threshold : K)
          * (pixel_coord (distps_viewport x y range width height).xmin
              (distps_viewport x y range width height).xmax (ix + 1) width
            - pixel_coord (distps_viewport x y range width height).xmin
              (distps_viewport x y range width height).xmax ix width) ∧
      distps_delta x y range width height threshold
        = (threshold : K)
          * ((distps_viewport x y range width height).xmax
            - (distps_viewport x y range width height).xmin) / ((width : K) - 1)) ∧
    distjules_delta range width thr = thr * range / (width : K) ∧
    (width > height →
      distjules_delta range width thr
        = thr * ((distjules_viewport x y range width height).xmax
            - (distjules_viewport x y range width height).xmin) / (width : K)) := by
  have hw0 : (width : K) - 1 ≠ 0 := by
    have : (width - 1 : Int) ≠ 0 := by omega
    exact_mod_cast this
  refine ⟨⟨?_, ?_⟩, ⟨?_, ?_⟩, rfl, ?_⟩
  · rw [pixel_coord_step, distpbm_delta, mandel_delta, mul_div_assoc]
  · rw [distpbm_delta, mandel_delta]; push_cast; rfl
  · rw [pixel_coord_step, distps_delta, mandel_delta, mul_div_assoc]
  · rw [distps_delta, mandel_delta]; push_cast; rfl
  · intro h
    simp only [distjules_delta, distjules_viewport, distjules_width_half, if_pos h]
    congr 1
    ring

/-- Witness for C7 (amended): the 64 x 64 end-to-end scenario in distpbm.c. -/
theorem delta_pixel_units_witness :
    distpbm_delta (-0.8 : ℝ) (-0.1671) 0.01 64 64 1
      = ((1 : Int) : ℝ)
        * ((distpbm_viewport (-0.8 : ℝ) (-0.1671) 0.01 64 64).xmax
          - (distpbm_viewport (-0.8 : ℝ) (-0.1671) 0.01 64 64).xmin)
        / (((64 : Int) : ℝ) - 1) :=
  (delta_pixel_units (-0.8 : ℝ) (-0.1671) 0.01 64 64 1 1 0 (by decide)).1.2

/-- C7 as stated fails for distjules.c: with `range = 1`, `width = height = 2`
and `threshold = 1` the program's `delta` is `1/2`, while
`threshold * (xmax - xmin) / (width - 1)` is `1`. -/
theorem distjules_delta_not_pixel_step :
    (2 : Int) ≤ 2 ∧
    distjules_delta (1 : ℝ) 2 1
      ≠ 1 * ((distjules_viewport (0 : ℝ) 0 1 2 2).xmax
          - (distjules_viewport (0 : ℝ) 0 1 2 2).xmin) / (((2 : Int) : ℝ) - 1) := by
  refine ⟨le_refl _, ?_⟩
  norm_num [distjules_delta, distjules_viewport, distjules_width_half]

/-! ## The binary quantizer -/

/-- C8 (amended): in distpbm.c a distance equal to the sentinel `huge` is
emitted as the sample `0` exactly when `delta <= 100000`, and as `1` when
`delta > 100000`; this holds for every `delta`, in particular for the one the
program computes from its arguments. -/
theorem distpbm_token_huge (x y range : K) (width height threshold : Int) (delta : K) :
    (distpbm_token (huge : K) delta = "0 " ↔ delta ≤ 100000) ∧
    (distpbm_token (huge : K) delta = "1 " ↔ 100000 < delta) ∧
    (distpbm_token (huge : K) (distpbm_delta x y range width height threshold) = "0 "
      ↔ distpbm_delta x y range width height threshold ≤ 100000) := by
  have key : ∀ d : K, (distpbm_token (huge : K) d = "0 " ↔ d ≤ 100000) := by
    intro d
    by_cases h : (100000 : K) < d
    · rw [distpbm_token, huge, if_pos h]
      constructor
      · intro hc; exact absurd hc (by decide)
      · intro hle; exact absurd h (not_lt.mpr hle)
    · rw [distpbm_token, huge, if_neg h]
      exact ⟨fun _ => not_lt.mp h, fun _ => rfl⟩
  refine ⟨key delta, ?_, key _⟩
  by_cases h : (100000 : K) < delta
  · rw [distpbm_token, huge, if_pos h]
    exact ⟨fun _ => h, fun _ => rfl⟩
  · rw [distpbm_token, huge, if_neg h]
    constructor
    · intro hc; exact absurd hc (by decide)
    · intro hlt; exact absurd hlt h

/-- C8 as stated fails: with `range = 1000000`, `width = height = 2` and
`threshold = 1` distpbm.c computes `delta = 1000000`, and a distance equal to
`huge` is emitted as `1`. -/
theorem distpbm_token_huge_one :
    distpbm_delta (0 : ℝ) 0 1000000 2 2 1 = 1000000 ∧
    distpbm_token (huge : ℝ) (distpbm_delta (0 : ℝ) 0 1000000 2 2 1) = "1 " ∧
    distpbm_token (huge : ℝ) (distpbm_delta (0 : ℝ) 0 1000000 2 2 1) ≠ "0 " := by
  have hd : distpbm_delta (0 : ℝ) 0 1000000 2 2 1 = 1000000 := by
    norm_num [distpbm_delta, mandel_delta, distpbm_viewport, distpbm_width_half]
  have ht : distpbm_token (huge : ℝ) (distpbm_delta (0 : ℝ) 0 1000000 2 2 1) = "1 " := by
    rw [hd, distpbm_token, huge, if_pos (by norm_num)]
  refine ⟨hd, ht, ?_⟩
  rw [ht]
  decide

/-! ## Independence of the initial contents of the orbit buffers -/

/-- After `k` passes, entry `j < k` of the buffers holds orbit point `j + 1`. -/
theorem fwd_iterate_orb (orb0 : Orbits K) (cx cy : K) (k : Nat) :
    ∀ j, j < k →
      ((fwd_step cx cy)^[k] (fwd_init orb0)).orb.xorbits j = (orbit cx cy (j + 1)).1 ∧
      ((fwd_step cx cy)^[k] (fwd_init orb0)).orb.yorbits j = (orbit cx cy (j + 1)).2 := by
  induction k with
  | zero => intro j hj; exact absurd hj (Nat.not_lt_zero j)
  | succ k ih =>
    intro j hj
    obtain ⟨hx, hy, hx2, hy2, hi⟩ := fwd_iterate_orbit orb0 cx cy k
    rw [Function.iterate_succ_apply']
    simp only [fwd_step, hi, hx, hy, hx2, hy2]
    by_cases hjk : j = k
    · subst hjk
      simp [orbit]
    · have hlt : j < k := by omega
      rw [Function.update_noteq hjk, Function.update_noteq hjk]
      exact ih j hlt

theorem fwd_cond_iterate (orb0 : Orbits K) (cx cy : K) (maxiter : Int) (j : Nat) :
    fwd_cond maxiter ((fwd_step cx cy)^[j] (fwd_init orb0))
      ↔ ((j : Int) < maxiter ∧ normSq2 (orbit cx cy j) < (huge : K)) := by
  rw [fwd_cond, fwd_iterate_normSq, (fwd_iterate_orbit orb0 cx cy j).2.2.2.2]

/-- The number of passes of the forward loop does not depend on the initial
contents of the buffers. -/
theorem fwd_final_passes (orb0 orb1 : Orbits K) (cx cy : K) (maxiter : Int) :
    ∃ n : Nat, fwd_final orb0 cx cy maxiter = (fwd_step cx cy)^[n] (fwd_init orb0) ∧
      fwd_final orb1 cx cy maxiter = (fwd_step cx cy)^[n] (fwd_init orb1) := by
  obtain ⟨n, hle, hn, hall⟩ :=
    while_loop_spec (fwd_cond maxiter) (fwd_step cx cy) maxiter.toNat (fwd_init orb0)
  have hstop : ¬ fwd_cond maxiter ((fwd_step cx cy)^[n] (fwd_init orb0)) := by
    have := fwd_final_exit orb0 cx cy maxiter
    rw [fwd_final, fwd_loop, hn] at this
    exact this
  refine ⟨n, hn, ?_⟩
  apply while_loop_eq_iterate (fwd_cond maxiter) (fwd_step cx cy) maxiter.toNat n _ hle
  · intro j hj
    exact (fwd_cond_iterate orb1 cx cy maxiter j).mpr
      ((fwd_cond_iterate orb0 cx cy maxiter j).mp (hall j hj))
  · intro hc
    exact hstop ((fwd_cond_iterate orb0 cx cy maxiter n).mpr
      ((fwd_cond_iterate orb1 cx cy maxiter n).mp hc))

/-- The replay recurrence after `k` passes reads only entries below `k`. -/
theorem replay_at_congr (overflow : K) (orb orb1 : Orbits K) (k : Nat)
    (h : ∀ j, j < k → orb.xorbits j = orb1.xorbits j ∧ orb.yorbits j = orb1.yorbits j) :
    replay_at overflow orb k = replay_at overflow orb1 k := by
  induction k with
  | zero => rfl
  | succ k ih =>
    have ih := ih (fun j hj => h j (Nat.lt_succ_of_lt hj))
    have hk := h k (Nat.lt_succ_self k)
    rw [replay_at_succ, replay_at_succ, ih]
    simp only [replay_step, replay_at_i, hk.1, hk.2]

/-- The replay loop gives the same result on two forward states with the same
`iter` whose buffers agree below `iter - 1`. -/
theorem replay_final_congr (overflow : K) (s s1 : FwdState K) (hiter : s.iter = s1.iter)
    (h : ∀ j, j + 1 < s.iter →
      s.orb.xorbits j = s1.orb.xorbits j ∧ s.orb.yorbits j = s1.orb.yorbits j) :
    replay_final overflow s = replay_final overflow s1 := by
  obtain ⟨n, hle, hn, hall⟩ :=
    while_loop_spec (replay_cond s.iter) (replay_step overflow s.orb) s.iter replay_init
  have hstop : ¬ replay_cond s.iter ((replay_step overflow s.orb)^[n] replay_init) := by
    have := replay_final_exit overflow s
    rw [replay_final, replay_loop, hn] at this
    exact this
  have hbound : ∀ j, j ≤ n → ∀ l, l < j → l + 1 < s.iter := by
    intro j hj l hl
    have hc := (hall l (by omega)).1
    have hi := replay_at_i overflow s.orb l
    rw [replay_at] at hi
    rw [hi] at hc
    omega
  have hsame : ∀ j, j ≤ n →
      (replay_step overflow s1.orb)^[j] replay_init
        = (replay_step overflow s.orb)^[j] replay_init := by
    intro j hj
    have := replay_at_congr overflow s1.orb s.orb j
      (fun l hl => ⟨(h l (hbound j hj l hl)).1.symm, (h l (hbound j hj l hl)).2.symm⟩)
    simpa [replay_at] using this
  have h1 : replay_final overflow s1 = (replay_step overflow s1.orb)^[n] replay_init := by
    rw [replay_final, replay_loop, ← hiter]
    apply while_loop_eq_iterate (replay_cond s.iter) (replay_step overflow s1.orb) s.iter n _ hle
    · intro j hj
      rw [hsame j (by omega)]
      exact hall j hj
    · rw [hsame n (le_refl n)]
      exact hstop
  rw [h1, hsame n (le_refl n), replay_final, replay_loop, hn]

/-- The distance returned by `estimate_distance` does not depend on what the
orbit buffers held before the call. -/
theorem estimate_distance_orbits_irrelevant (logf sqrtf : K → K) (overflow : K)
    (orb0 orb1 : Orbits K) (cx cy : K) (maxiter : Int) :
    estimate_distance logf sqrtf overflow orb0 cx cy maxiter
      = estimate_distance logf sqrtf overflow orb1 cx cy maxiter := by
  obtain ⟨n, h0, h1⟩ := fwd_final_passes orb0 orb1 cx cy maxiter
  obtain ⟨ax, ay, ax2, ay2, ai⟩ := fwd_iterate_orbit orb0 cx cy n
  obtain ⟨bx, b_y, bx2, by2, bi⟩ := fwd_iterate_orbit orb1 cx cy n
  have hrep : replay_final overflow (fwd_final orb0 cx cy maxiter)
      = replay_final overflow (fwd_final orb1 cx cy maxiter) := by
    apply replay_final_congr
    · rw [h0, h1, ai, bi]
    · intro j hj
      rw [h0, ai] at hj
      rw [h0, h1]
      have e0 := fwd_iterate_orb orb0 cx cy n j (by omega)
      have e1 := fwd_iterate_orb orb1 cx cy n j (by omega)
      exact ⟨e0.1.trans e1.1.symm, e0.2.trans e1.2.symm⟩
  have hx2 : (fwd_final orb0 cx cy maxiter).x2 = (fwd_final orb1 cx cy maxiter).x2 := by
    rw [h0, h1, ax2, bx2]
  have hy2 : (fwd_final orb0 cx cy maxiter).y2 = (fwd_final orb1 cx cy maxiter).y2 := by
    rw [h0, h1, ay2, by2]
  simp only [estimate_distance, dist_of, hrep, hx2, hy2]

/-! ## The image stream of distpbm.c -/

/-- Nested `for` loops visit the pixels in raster order. -/
theorem foldl_rows_cols {σ : Type} (f : Nat → σ → Nat → σ) (cols : List Nat) :
    ∀ (rows : List Nat) (st : σ),
      rows.foldl (fun st iy => cols.foldl (f iy) st) st
        = (rows.flatMap (fun iy => cols.map (fun ix => (iy, ix)))).foldl
            (fun st p => f p.1 st p.2) st := by
  intro rows
  induction rows with
  | nil => intro st; rfl
  | cons iy rows ih =>
    intro st
    rw [List.foldl_cons, ih, List.flatMap_cons, List.foldl_append, List.foldl_map]

theorem distpbm_token_cases (dist delta : K) :
    distpbm_token dist delta = "1 " ∨ distpbm_token dist delta = "0 " := by
  by_cases h : dist < delta
  · left; rw [distpbm_token, if_pos h]
  · right; rw [distpbm_token, if_neg h]

/-- The pixel loops append to stdout the tokens of the pixels visited, laid out
by the `linepos` rule; each token is computed by `estimate_distance` at the
pixel's coordinate, whatever the buffers hold. -/
theorem distpbm_pixels_out (logf sqrtf : K → K) (overflow delta : K) (vp : Viewport K)
    (width height maxiter : Int) (orb0 : Orbits K) :
    ∀ (ps : List (Nat × Nat)) (st : PbmState K),
      (ps.foldl (fun st p => distpbm_pixel logf sqrtf overflow delta vp width maxiter
          (pixel_coord vp.ymin vp.ymax (p.1 : Int) height) st p.2) st).out.data
        = st.out.data ++ wrap_tokens st.linepos (ps.map (fun p =>
            distpbm_token (estimate_distance logf sqrtf overflow orb0
              (pixel_coord vp.xmin vp.xmax (p.2 : Int) width)
              (pixel_coord vp.ymin vp.ymax (p.1 : Int) height) maxiter) delta)) := by
  intro ps
  induction ps with
  | nil => intro st; simp [wrap_tokens]
  | cons p ps ih =>
    intro st
    rw [List.foldl_cons, ih, List.map_cons, wrap_tokens]
    have hind := estimate_distance_orbits_irrelevant logf sqrtf overflow st.orb orb0
      (pixel_coord vp.xmin vp.xmax (p.2 : Int) width)
      (pixel_coord vp.ymin vp.ymax (p.1 : Int) height) maxiter
    by_cases hl : st.linepos + 2 > 70
    · simp only [distpbm_pixel, if_pos hl, hind, String.data_append]
      simp
    · simp only [distpbm_pixel, if_neg hl, hind, String.data_append]
      simp

/-- Removing the newlines from the wrapped output leaves the tokens. -/
theorem wrap_tokens_filter :
    ∀ (ts : List String) (lp : Int),
      (∀ t, t ∈ ts → t.data.filter (fun c => c != '\n') = t.data) →
      (wrap_tokens lp ts).filter (fun c => c != '\n') = ts.flatMap (fun t => t.data) := by
  intro ts
  induction ts with
  | nil => intro lp _; rfl
  | cons t ts ih =>
    intro lp h
    have ht := h t (List.mem_cons_self t ts)
    have hts : ∀ u, u ∈ ts → u.data.filter (fun c => c != '\n') = u.data :=
      fun u hu => h u (List.mem_cons_of_mem t hu)
    rw [wrap_tokens, List.flatMap_cons]
    by_cases hl : lp + 2 > 70
    · rw [if_pos hl, List.filter_cons_of_neg (by decide), List.filter_append, ht, ih 0 hts]
    · rw [if_neg hl, List.filter_append, ht, ih (lp + 2) hts]

theorem rows_cols_length (rows cols : List Nat) :
    (rows.flatMap (fun iy => cols.map (fun ix => (iy, ix)))).length
      = rows.length * cols.length := by
  induction rows with
  | nil => simp
  | cons r rows ih =>
    rw [List.flatMap_cons, List.length_append, ih, List.length_map, List.length_cons]
    ring

theorem raster_pixels_length (width height : Int) (hw : 0 ≤ width) (hh : 0 ≤ height) :
    ((raster_pixels width height).length : Int) = width * height := by
  rw [raster_pixels, rows_cols_length, List.length_range, List.length_range]
  push_cast
  rw [Int.toNat_of_nonneg hw, Int.toNat_of_nonneg hh]
  ring

/-- In raster order pixel `(iy, ix)` has index `iy * w + ix`. -/
theorem rows_cols_getElem (w : Nat) :
    ∀ (h iy ix : Nat), iy < h → ix < w →
      ((List.range h).flatMap (fun iy => (List.range w).map (fun ix => (iy, ix))))[iy * w + ix]?
        = some (iy, ix) := by
  intro h
  induction h with
  | zero => intro iy ix hiy _; exact absurd hiy (Nat.not_lt_zero iy)
  | succ h ih =>
    intro iy ix hiy hix
    have hlen : ((List.range h).flatMap
        (fun iy => (List.range w).map (fun ix => (iy, ix)))).length = h * w := by
      rw [rows_cols_length, List.length_range, List.length_range]
    rw [List.range_succ, List.flatMap_append]
    by_cases hlt : iy < h
    · have hidx : iy * w + ix < h * w := by
        have : (iy + 1) * w ≤ h * w := Nat.mul_le_mul_right w hlt
        have e : (iy + 1) * w = iy * w + w := by ring
        omega
      rw [List.getElem?_append_left (by rw [hlen]; exact hidx)]
      exact ih iy ix hlt hix
    · have heq : iy = h := by omega
      subst heq
      rw [List.getElem?_append_right (by rw [hlen]; omega), hlen]
      simp [hix]

/-- C9: for `width >= 2`, `height >= 2` and any other arguments (allocation of
the orbit buffers succeeding), the image stream of distpbm.c is the header
`P1\n<width> <height>\n` followed by a body which, apart from newlines,
consists exactly of the `width * height` tokens of the pixels in raster order
(row `iy` outer, column `ix` inner: pixel `(ix, iy)` is token number
`iy * width + ix`), the token of pixel `(ix, iy)` being `1 ` exactly when
`estimate_distance` at that pixel's coordinate is `< delta`, and `0 ` otherwise. -/
theorem distpbm_main_stream (logf sqrtf : K → K) (powf : K → K → K) (orb0 : Orbits K)
    (x y range : K) (width height maxiter threshold : Int)
    (hw : 2 ≤ width) (hh : 2 ≤ height) :
    ∃ body : List Char,
      (distpbm_main logf sqrtf powf true orb0 x y range width height maxiter threshold).data
        = ("P1\n" ++ toString width ++ " " ++ toString height ++ "\n").data ++ body ∧
      body.filter (fun c => c != '\n')
        = (raster_pixels width height).flatMap (fun p =>
            (if estimate_distance logf sqrtf
                (powf (distpbm_delta x y range width height threshold) (-2)) orb0
                (pixel_coord (distpbm_viewport x y range width height).xmin
                  (distpbm_viewport x y range width height).xmax (p.2 : Int) width)
                (pixel_coord (distpbm_viewport x y range width height).ymin
                  (distpbm_viewport x y range width height).ymax (p.1 : Int) height) maxiter
                < distpbm_delta x y range width height threshold
              then "1 " else "0 ").data) ∧
      ((raster_pixels width height).length : Int) = width * height ∧
      (∀ iy ix : Nat, (iy : Int) < height → (ix : Int) < width →
        (raster_pixels width height)[iy * width.toNat + ix]? = some (iy, ix)) := by
  refine ⟨wrap_tokens 0 ((raster_pixels width height).map (fun p =>
      distpbm_token (estimate_distance logf sqrtf
        (powf (distpbm_delta x y range width height threshold) (-2)) orb0
        (pixel_coord (distpbm_viewport x y range width height).xmin
          (distpbm_viewport x y range width height).xmax (p.2 : Int) width)
        (pixel_coord (distpbm_viewport x y range width height).ymin
          (distpbm_viewport x y range width height).ymax (p.1 : Int) height) maxiter)
        (distpbm_delta x y range width height threshold))), ?_, ?_, ?_, ?_⟩
  · simp only [distpbm_main, if_true]
    unfold distpbm_row
    rw [foldl_rows_cols, ← raster_pixels]
    exact distpbm_pixels_out logf sqrtf _ _ _ width height maxiter orb0 _ _
  · rw [wrap_tokens_filter]
    · rw [List.flatMap_map]
      rfl
    · intro t ht
      obtain ⟨p, _, hp⟩ := List.mem_map.mp ht
      rcases distpbm_token_cases (estimate_distance logf sqrtf
        (powf (distpbm_delta x y range width height threshold) (-2)) orb0
        (pixel_coord (distpbm_viewport x y range width height).xmin
          (distpbm_viewport x y range width height).xmax (p.2 : Int) width)
        (pixel_coord (distpbm_viewport x y range width height).ymin
          (distpbm_viewport x y range width height).ymax (p.1 : Int) height) maxiter)
        (distpbm_delta x y range width height threshold) with h | h
      · rw [← hp, h]; decide
      · rw [← hp, h]; decide
  · exact raster_pixels_length width height (by omega) (by omega)
  · intro iy ix hiy hix
    exact rows_cols_getElem width.toNat height.toNat iy ix (by omega) (by omega)

/-- Witness for C9: the 64 x 64 end-to-end scenario over the reals. -/
theorem distpbm_main_stream_witness :
    ∃ body : List Char,
      (distpbm_main Real.log Real.sqrt (fun d e => d ^ e) true zero_orbits
          (-0.8 : ℝ) (-0.1671) 0.01 64 64 256 1).data
        = ("P1\n" ++ toString (64 : Int) ++ " " ++ toString (64 : Int) ++ "\n").data ++ body ∧
      body.filter (fun c => c != '\n')
        = (raster_pixels 64 64).flatMap (fun p =>
            (if estimate_distance Real.log Real.sqrt
                ((fun (d e : ℝ) => d ^ e) (distpbm_delta (-0.8 : ℝ) (-0.1671) 0.01 64 64 1) (-2))
                zero_orbits
                (pixel_coord (distpbm_viewport (-0.8 : ℝ) (-0.1671) 0.01 64 64).xmin
                  (distpbm_viewport (-0.8 : ℝ) (-0.1671) 0.01 64 64).xmax (p.2 : Int) 64)
                (pixel_coord (distpbm_viewport (-0.8 : ℝ) (-0.1671) 0.01 64 64).ymin
                  (distpbm_viewport (-0.8 : ℝ) (-0.1671) 0.01 64 64).ymax (p.1 : Int) 64) 256
                < distpbm_delta (-0.8 : ℝ) (-0.1671) 0.01 64 64 1
              then "1 " else "0 ").data) ∧
      ((raster_pixels 64 64).length : Int) = 64 * 64 := by
  obtain ⟨body, h1, h2, h3, _⟩ :=
    distpbm_main_stream Real.log Real.sqrt (fun d e => d ^ e) zero_orbits
      (-0.8 : ℝ) (-0.1671) 0.01 64 64 256 1 (by decide) (by decide)
  exact ⟨body, h1, h2, h3⟩

/-! ## Line structure of the image stream -/

theorem flatMap_data_length (ts : List String) (h : ∀ t, t ∈ ts → t.data.length = 2) :
    (ts.flatMap (fun t => t.data)).length = 2 * ts.length := by
  induction ts with
  | nil => rfl
  | cons t ts ih =>
    rw [List.flatMap_cons, List.length_append, h t (List.mem_cons_self t ts),
      ih (fun u hu => h u (List.mem_cons_of_mem t hu)), List.length_cons]
    ring

theorem flatMap_data_no_newline (ts : List String) (h : ∀ t, t ∈ ts → '\n' ∉ t.data) :
    '\n' ∉ ts.flatMap (fun t => t.data) := by
  intro hmem
  obtain ⟨t, ht, hc⟩ := List.mem_flatMap.mp hmem
  exact h t ht hc

/-- Tokens that fit on the current line are written without a newline. -/
theorem wrap_tokens_append_fit :
    ∀ (a : List String) (lp : Int) (b : List String), lp + 2 * (a.length : Int) ≤ 70 →
      wrap_tokens lp (a ++ b)
        = a.flatMap (fun t => t.data) ++ wrap_tokens (lp + 2 * (a.length : Int)) b := by
  intro a
  induction a with
  | nil => intro lp b _; simp
  | cons t a ih =>
    intro lp b h
    rw [List.length_cons] at h
    push_cast at h
    have hl : ¬ lp + 2 > 70 := by omega
    rw [List.cons_append, wrap_tokens, if_neg hl, ih (lp + 2) b (by omega), List.flatMap_cons,
      List.append_assoc, List.length_cons]
    push_cast
    have e : lp + 2 + 2 * (a.length : Int) = lp + 2 * ((a.length : Int) + 1) := by ring
    rw [e]

/-- The line structure produced by the `linepos` rule: with at least 72 tokens
of two characters each, the first line holds 35 tokens (70 characters) and the
second line holds 36 tokens (72 characters). -/
theorem wrap_tokens_second_line (ts : List String) (hlen : 72 ≤ ts.length)
    (h2 : ∀ t, t ∈ ts → t.data.length = 2) (hnl : ∀ t, t ∈ ts → '\n' ∉ t.data) :
    ∃ l1 l2 rest : List Char,
      wrap_tokens 0 ts = l1 ++ '\n' :: (l2 ++ '\n' :: rest) ∧
      l1.length = 70 ∧ l2.length = 72 ∧ '\n' ∉ l1 ∧ '\n' ∉ l2 := by
  have hsplit1 : ts = ts.take 35 ++ ts.drop 35 := (List.take_append_drop 35 ts).symm
  have hmem_take : ∀ t, t ∈ ts.take 35 → t ∈ ts := fun t ht => List.mem_of_mem_take ht
  have hmem_drop : ∀ t, t ∈ ts.drop 35 → t ∈ ts := fun t ht => List.mem_of_mem_drop ht
  have hla : (ts.take 35).length = 35 := by rw [List.length_take]; omega
  have hld : (ts.drop 35).length = ts.length - 35 := List.length_drop 35 ts
  cases hd : ts.drop 35 with
  | nil => rw [hd] at hld; simp at hld; omega
  | cons t r1 =>
    have hr1len : r1.length = ts.length - 36 := by
      rw [hd, List.length_cons] at hld; omega
    have ht_mem : t ∈ ts := hmem_drop t (by rw [hd]; exact List.mem_cons_self t r1)
    have hr1_mem : ∀ u, u ∈ r1 → u ∈ ts :=
      fun u hu => hmem_drop u (by rw [hd]; exact List.mem_cons_of_mem t hu)
    have hlb : (r1.take 35).length = 35 := by rw [List.length_take]; omega
    cases hd2 : r1.drop 35 with
    | nil =>
      have := List.length_drop 35 r1
      rw [hd2] at this
      simp at this
      omega
    | cons u r2 =>
      have hb_mem : ∀ v, v ∈ r1.take 35 → v ∈ ts :=
        fun v hv => hr1_mem v (List.mem_of_mem_take hv)
      refine ⟨(ts.take 35).flatMap (fun t => t.data),
        t.data ++ (r1.take 35).flatMap (fun t => t.data),
        u.data ++ wrap_tokens 0 r2, ?_, ?_, ?_, ?_, ?_⟩
      · have e1 := wrap_tokens_append_fit (ts.take 35) 0 (ts.drop 35) (by rw [hla]; decide)
        rw [← hsplit1, hla, hd] at e1
        have e70 : (0 : Int) + 2 * ((35 : Nat) : Int) = 70 := by decide
        rw [e70, wrap_tokens, if_pos (by decide)] at e1
        have hsplit2 : r1 = r1.take 35 ++ r1.drop 35 := (List.take_append_drop 35 r1).symm
        have e2 := wrap_tokens_append_fit (r1.take 35) 0 (r1.drop 35) (by rw [hlb]; decide)
        rw [← hsplit2, hlb, hd2, e70, wrap_tokens, if_pos (by decide)] at e2
        rw [e1, e2, List.append_assoc]
      · rw [flatMap_data_length _ (fun v hv => h2 v (hmem_take v hv)), hla]
      · rw [List.length_append, h2 t ht_mem,
          flatMap_data_length _ (fun v hv => h2 v (hb_mem v hv)), hlb]
      · exact flatMap_data_no_newline _ (fun v hv => hnl v (hmem_take v hv))
      · intro hmem
        rcases List.mem_append.mp hmem with h | h
        · exact hnl t ht_mem h
        · exact flatMap_data_no_newline _ (fun v hv => hnl v (hb_mem v hv)) h

/-- C10 (evaluation at the failing input): for the 64 x 64 scenario, whatever
the remaining arguments, the body of the image stream of distpbm.c starts with
a line of 70 characters (35 tokens) followed by a line of 72 characters
(36 tokens). -/
theorem distpbm_main_second_line (logf sqrtf : K → K) (powf : K → K → K) (orb0 : Orbits K)
    (x y range : K) (maxiter threshold : Int) :
    ∃ l1 l2 rest : List Char,
      (distpbm_main logf sqrtf powf true orb0 x y range 64 64 maxiter threshold).data
        = ("P1\n" ++ toString (64 : Int) ++ " " ++ toString (64 : Int) ++ "\n").data
          ++ (l1 ++ '\n' :: (l2 ++ '\n' :: rest)) ∧
      l1.length = 70 ∧ l2.length = 72 ∧ '\n' ∉ l1 ∧ '\n' ∉ l2 := by
  have hout : (distpbm_main logf sqrtf powf true orb0 x y range 64 64 maxiter threshold).data
      = ("P1\n" ++ toString (64 : Int) ++ " " ++ toString (64 : Int) ++ "\n").data
        ++ wrap_tokens 0 ((raster_pixels 64 64).map (fun p =>
          distpbm_token (estimate_distance logf sqrtf
            (powf (distpbm_delta x y range 64 64 threshold) (-2)) orb0
            (pixel_coord (distpbm_viewport x y range 64 64).xmin
              (distpbm_viewport x y range 64 64).xmax (p.2 : Int) 64)
            (pixel_coord (distpbm_viewport x y range 64 64).ymin
              (distpbm_viewport x y range 64 64).ymax (p.1 : Int) 64) maxiter)
            (distpbm_delta x y range 64 64 threshold))) := by
    simp only [distpbm_main, if_true]
    unfold distpbm_row
    rw [foldl_rows_cols, ← raster_pixels]
    exact distpbm_pixels_out logf sqrtf _ _ _ 64 64 maxiter orb0 _ _
  have hlen : ((raster_pixels 64 64).length : Int) = 64 * 64 :=
    raster_pixels_length 64 64 (by decide) (by decide)
  have htok : ∀ t, t ∈ (raster_pixels 64 64).map (fun p =>
      distpbm_token (estimate_distance logf sqrtf
        (powf (distpbm_delta x y range 64 64 threshold) (-2)) orb0
        (pixel_coord (distpbm_viewport x y range 64 64).xmin
          (distpbm_viewport x y range 64 64).xmax (p.2 : Int) 64)
        (pixel_coord (distpbm_viewport x y range 64 64).ymin
          (distpbm_viewport x y range 64 64).ymax (p.1 : Int) 64) maxiter)
        (distpbm_delta x y range 64 64 threshold)) → t = "1 " ∨ t = "0 " := by
    intro t ht
    obtain ⟨p, _, hp⟩ := List.mem_map.mp ht
    rw [← hp]
    exact distpbm_token_cases _ _
  have hlenN : (raster_pixels 64 64).length = 4096 := by omega
  obtain ⟨l1, l2, rest, hw, h1, h2, h3, h4⟩ := wrap_tokens_second_line _
    (le_of_le_of_eq (by rw [hlenN]; decide) (List.length_map _ _).symm)
    (fun t ht => by rcases htok t ht with h | h <;> rw [h] <;> rfl)
    (fun t ht => by rcases htok t ht with h | h <;> rw [h] <;> decide)
  exact ⟨l1, l2, rest, by rw [hout, hw], h1, h2, h3, h4⟩

/-! ## Viewport of distps.c -/

/-- C19: in distps.c, for `width > height >= 1` the `long` quotient
`height / width` is `0`, so `height_half = 0`, `xmin = x - range/2`,
`ymin = y - range/2`, `xmax = x`, `ymax = y` (a square of side `range/2` with
upper corner `(x, y)`); for `1 <= width <= height`, with `q` the integer
quotient of `height` by `width`, `xmin = x - range*q/2`, `ymin = y - range*q/2`,
`xmax = x + range/2`, `ymax = y + range/2`. -/
theorem distps_viewport_integer_division (x y range : K) (width height : Int) :
    (1 ≤ height → height < width →
      Int.tdiv height width = 0 ∧
      distps_height_half range width height = 0 ∧
      distps_viewport x y range width height
        = { xmin := x - range / 2, ymin := y - range / 2, xmax := x, ymax := y } ∧
      (distps_viewport x y range width height).xmax
        - (distps_viewport x y range width height).xmin = range / 2 ∧
      (distps_viewport x y range width height).ymax
        - (distps_viewport x y range width height).ymin = range / 2) ∧
    (1 ≤ width → width ≤ height →
      Int.tdiv height width = height / width ∧
      distps_viewport x y range width height
        = { xmin := x - range * ((height / width : Int) : K) / 2,
            ymin := y - range * ((height / width : Int) : K) / 2,
            xmax := x + range / 2, ymax := y + range / 2 }) := by
  constructor
  · intro hh hlt
    have hq : Int.tdiv height width = 0 := Int.tdiv_eq_zero_of_lt (by omega) hlt
    have hgt : width > height := hlt
    have h1 : distps_width_half range width height = range / 2 := by
      rw [distps_width_half, if_pos hgt]
    have h2 : distps_height_half range width height = 0 := by
      rw [distps_height_half, if_pos hgt, hq]
      simp
    refine ⟨hq, h2, ?_, ?_, ?_⟩
    · rw [distps_viewport, h1, h2, add_zero, add_zero]
    · simp only [distps_viewport, h1, h2]; ring
    · simp only [distps_viewport, h1, h2]; ring
  · intro hw hle
    have hq : Int.tdiv height width = height / width :=
      Int.tdiv_eq_ediv (by omega) (by omega)
    have hng : ¬ width > height := not_lt.mpr hle
    refine ⟨hq, ?_⟩
    rw [distps_viewport, distps_width_half, distps_height_half, if_neg hng, if_neg hng, hq]

/-- Witness for C19: a 640 x 480 image in distps.c. -/
theorem distps_viewport_integer_division_witness :
    distps_viewport (0 : ℝ) 0 3 640 480
      = { xmin := 0 - 3 / 2, ymin := 0 - 3 / 2, xmax := 0, ymax := 0 } :=
  ((distps_viewport_integer_division (0 : ℝ) 0 3 640 480).1 (by decide) (by decide)).2.2.1

/-! ## Agreement of the two distance formulas -/

/-- The value of `dist` on the formula path is `mandel_formula`. -/
theorem dist_of_mandel_formula (logf sqrtf : K → K) (overflow : K) (s : FwdState K)
    (hesc : s.x2 + s.y2 > (huge : K)) (hflag : (replay_final overflow s).flag = false) :
    dist_of logf sqrtf overflow s
      = mandel_formula logf sqrtf s.x2 s.y2 (replay_final overflow s).xder
          (replay_final overflow s).yder := by
  rw [dist_of_formula logf sqrtf overflow s hesc hflag, mandel_formula]

/-- C16: for reals with `x^2 + y^2 > 0` and `xder^2 + yder^2 > 0`, the expression
`log(x^2+y^2) * sqrt(x^2+y^2) / sqrt(xder^2+yder^2)` of `estimate_distance` equals
the expression `2 * a * log(a) / sqrt(xder^2+yder^2)`, `a = sqrt(x^2+y^2)`, of
`jdist`, and the divisor is not zero. -/
theorem formulas_agree (x y xder yder : ℝ) (hz : x * x + y * y > 0)
    (hd : xder * xder + yder * yder > 0) :
    mandel_formula Real.log Real.sqrt (x * x) (y * y) xder yder
      = jdist_formula Real.log Real.sqrt (x * x + y * y) (xder * xder + yder * yder) ∧
    jdist_formula Real.log Real.sqrt (x * x + y * y) (xder * xder + yder * yder)
      = 2 * Real.sqrt (x * x + y * y) * Real.log (Real.sqrt (x * x + y * y))
        / Real.sqrt (xder * xder + yder * yder) ∧
    Real.sqrt (xder * xder + yder * yder) ≠ 0 := by
  refine ⟨?_, rfl, ne_of_gt (Real.sqrt_pos.mpr hd)⟩
  rw [mandel_formula, jdist_formula, Real.log_sqrt hz.le]
  ring

/-- Witness for C16 at `z = 3 + 4i`, `z' = 1 + 0i`. -/
theorem formulas_agree_witness :
    mandel_formula Real.log Real.sqrt ((3 : ℝ) * 3) (4 * 4) 1 0
      = jdist_formula Real.log Real.sqrt ((3 : ℝ) * 3 + 4 * 4) (1 * 1 + 0 * 0) :=
  (formulas_agree 3 4 1 0 (by norm_num) (by norm_num)).1

/-! ## Orbit buffer accesses -/

/-- The trace of a bounded loop lists the observations on the iterates of the
body for the passes made. -/
theorem while_trace_spec {σ α : Type} (cond : σ → Prop) [DecidablePred cond] (body : σ → σ)
    (obs : σ → α) :
    ∀ (fuel : Nat) (s : σ), ∃ n : Nat, n ≤ fuel ∧
      while_loop cond body fuel s = body^[n] s ∧
      (∀ j, j < n → cond (body^[j] s)) ∧
      while_trace cond body obs fuel s = (List.range n).map (fun j => obs (body^[j] s)) := by
  intro fuel
  induction fuel with
  | zero =>
    intro s
    exact ⟨0, le_refl _, rfl, fun j hj => absurd hj (Nat.not_lt_zero j), rfl⟩
  | succ m ih =>
    intro s
    by_cases hc : cond s
    · obtain ⟨n, hle, hn, hall, htr⟩ := ih (body s)
      refine ⟨n + 1, Nat.succ_le_succ hle, ?_, ?_, ?_⟩
      · rw [while_loop, if_pos hc, hn, Function.iterate_succ_apply]
      · intro j hj
        cases j with
        | zero => exact hc
        | succ j =>
          rw [Function.iterate_succ_apply]
          exact hall j (Nat.lt_of_succ_lt_succ hj)
      · rw [while_trace, if_pos hc, htr, List.range_succ_eq_map, List.map_cons, List.map_map]
        rfl
    · refine ⟨0, Nat.zero_le _, ?_, fun j hj => absurd hj (Nat.not_lt_zero j), ?_⟩
      · rw [while_loop, if_neg hc]; rfl
      · rw [while_trace, if_neg hc]; rfl

/-- The passes of the forward loop write the entries `0, 1, ..., iter - 1`, where
`iter` is the count at exit. -/
theorem fwd_writes_eq_range (orb0 : Orbits K) (cx cy : K) (maxiter : Int) :
    fwd_writes orb0 cx cy maxiter = List.range (fwd_final orb0 cx cy maxiter).iter := by
  obtain ⟨n, _, hn, _, htr⟩ := while_trace_spec (fwd_cond maxiter) (fwd_step cx cy)
    (fun s => s.iter) maxiter.toNat (fwd_init orb0)
  have hiter : (fwd_final orb0 cx cy maxiter).iter = n := by
    rw [fwd_final, fwd_loop, hn, (fwd_iterate_orbit orb0 cx cy n).2.2.2.2]
  rw [fwd_writes, htr, hiter]
  apply List.ext_getElem
  · simp
  · intro j h1 h2
    simp [(fwd_iterate_orbit orb0 cx cy j).2.2.2.2]

/-- The count at exit of the forward loop is at most `maxiter` (for
`maxiter >= 0`). -/
theorem fwd_final_iter_le (orb0 : Orbits K) (cx cy : K) (maxiter : Int) (hm : 0 ≤ maxiter) :
    ((fwd_final orb0 cx cy maxiter).iter : Int) ≤ maxiter := by
  obtain ⟨n, hle, hn, _⟩ :=
    while_loop_spec (fwd_cond maxiter) (fwd_step cx cy) maxiter.toNat (fwd_init orb0)
  rw [fwd_final, fwd_loop, hn, (fwd_iterate_orbit orb0 cx cy n).2.2.2.2]
  omega

/-- Every read of the replay loop is made with the loop test true. -/
theorem replay_reads_bound (overflow : K) (s : FwdState K) :
    ∀ i, i ∈ replay_reads overflow s → (i : Int) < (s.iter : Int) - 1 := by
  intro i hi
  obtain ⟨n, _, _, hall, htr⟩ := while_trace_spec (replay_cond s.iter)
    (replay_step overflow s.orb) (fun r => r.i) s.iter replay_init
  rw [replay_reads, htr] at hi
  obtain ⟨j, hj, hji⟩ := List.mem_map.mp hi
  have hc := (hall j (List.mem_range.mp hj)).1
  rw [← hji]
  exact hc

/-- C17: in `estimate_distance`, for `maxiter >= 1` (buffers of `maxiter`
elements), the forward loop stops through its test after at most `maxiter`
passes, the initial write to entry `0` and every write `xorbits[iter]`,
`yorbits[iter]` of a pass have `0 <= iter < maxiter`, every replay read
`xorbits[i]`, `yorbits[i]` has `0 <= i < iter - 1 <= maxiter - 1`, and the number
of recorded orbit points is at most `maxiter`. -/
theorem orbit_buffer_bounds (overflow : K) (orb0 : Orbits K) (cx cy : K) (maxiter : Int)
    (hm : 1 ≤ maxiter) :
    ¬ fwd_cond maxiter (fwd_final orb0 cx cy maxiter) ∧
    ((fwd_writes orb0 cx cy maxiter).length : Int) ≤ maxiter ∧
    (0 : Int) < maxiter ∧
    (∀ idx, idx ∈ fwd_writes orb0 cx cy maxiter → (0 : Int) ≤ idx ∧ (idx : Int) < maxiter) ∧
    (∀ i, i ∈ replay_reads overflow (fwd_final orb0 cx cy maxiter) →
      (0 : Int) ≤ i ∧ (i : Int) < ((fwd_final orb0 cx cy maxiter).iter : Int) - 1 ∧
      ((fwd_final orb0 cx cy maxiter).iter : Int) - 1 ≤ maxiter - 1) ∧
    ((fwd_final orb0 cx cy maxiter).iter : Int) ≤ maxiter := by
  have hle := fwd_final_iter_le orb0 cx cy maxiter (by omega)
  have hw := fwd_writes_eq_range orb0 cx cy maxiter
  refine ⟨fwd_final_exit orb0 cx cy maxiter, ?_, by omega, ?_, ?_, hle⟩
  · rw [hw, List.length_range]; exact hle
  · intro idx hidx
    rw [hw] at hidx
    have := List.mem_range.mp hidx
    omega
  · intro i hi
    have := replay_reads_bound overflow _ i hi
    omega

/-- Witness for C17: `c = 100 + 0i`, `maxiter = 5`. -/
theorem orbit_buffer_bounds_witness :
    (∀ idx, idx ∈ fwd_writes zero_orbits (100 : ℝ) 0 5 → (0 : Int) ≤ idx ∧ (idx : Int) < 5) ∧
    ((fwd_final zero_orbits (100 : ℝ) 0 5).iter : Int) ≤ 5 :=
  ⟨(orbit_buffer_bounds (10 : ℝ) zero_orbits 100 0 5 (by decide)).2.2.2.1,
    (orbit_buffer_bounds (10 : ℝ) zero_orbits 100 0 5 (by decide)).2.2.2.2.2⟩

/-- C18: the distance returned by `estimate_distance` is the same for any two
initial contents of the shared orbit buffers; every entry read by the replay
was written by a pass of the forward loop of the same call, and holds an orbit
point of this call's `c`. -/
theorem estimate_distance_pixel_independent (logf sqrtf : K → K) (overflow : K)
    (orb0 orb1 : Orbits K) (cx cy : K) (maxiter : Int) :
    estimate_distance logf sqrtf overflow orb0 cx cy maxiter
      = estimate_distance logf sqrtf overflow orb1 cx cy maxiter ∧
    (∀ i, i ∈ replay_reads overflow (fwd_final orb0 cx cy maxiter) →
      i ∈ fwd_writes orb0 cx cy maxiter ∧
      (fwd_final orb0 cx cy maxiter).orb.xorbits i = (orbit cx cy (i + 1)).1 ∧
      (fwd_final orb0 cx cy maxiter).orb.yorbits i = (orbit cx cy (i + 1)).2) := by
  refine ⟨estimate_distance_orbits_irrelevant logf sqrtf overflow orb0 orb1 cx cy maxiter, ?_⟩
  intro i hi
  have hb := replay_reads_bound overflow _ i hi
  obtain ⟨n, hn, _, _⟩ := fwd_final_spec orb0 cx cy maxiter
  have hiter : (fwd_final orb0 cx cy maxiter).iter = n := by
    rw [hn, (fwd_iterate_orbit orb0 cx cy n).2.2.2.2]
  have hlt : i < n := by omega
  refine ⟨?_, ?_, ?_⟩
  · rw [fwd_writes_eq_range, hiter]; exact List.mem_range.mpr hlt
  · rw [hn]; exact (fwd_iterate_orb orb0 cx cy n i hlt).1
  · rw [hn]; exact (fwd_iterate_orb orb0 cx cy n i hlt).2

/-! ## What the replay computes -/

/-- Each replay pass multiplies by the orbit point with index one higher than
the pass number: pass `k` (reading entry `k`) uses `z_{k+1}`. -/
theorem replay_at_step_orbit (overflow : K) (orb0 : Orbits K) (cx cy : K) (n k : Nat)
    (hk : k < n) :
    (replay_at overflow ((fwd_step cx cy)^[n] (fwd_init orb0)).orb (k + 1)).xder
      = 2 * ((orbit cx cy (k + 1)).1
            * (replay_at overflow ((fwd_step cx cy)^[n] (fwd_init orb0)).orb k).xder
          - (orbit cx cy (k + 1)).2
            * (replay_at overflow ((fwd_step cx cy)^[n] (fwd_init orb0)).orb k).yder) + 1 ∧
    (replay_at overflow ((fwd_step cx cy)^[n] (fwd_init orb0)).orb (k + 1)).yder
      = 2 * ((orbit cx cy (k + 1)).2
            * (replay_at overflow ((fwd_step cx cy)^[n] (fwd_init orb0)).orb k).xder
          + (orbit cx cy (k + 1)).1
            * (replay_at overflow ((fwd_step cx cy)^[n] (fwd_init orb0)).orb k).yder) := by
  have ho := fwd_iterate_orb orb0 cx cy n k hk
  rw [replay_at_succ]
  constructor
  · simp only [replay_step, replay_at_i, ho.1, ho.2]
  · simp only [replay_step, replay_at_i, ho.1, ho.2]


/-- C14 (evaluation at the failing input): for `distpbm 10 0 0.02 3 3 5 1` the
centre pixel has `c = 10 + 0i` and `overflow = delta^-2 = 10000`; the orbit
escapes with `iter = 3`, the replay is not aborted and accumulates
`(xder, yder) = (221, 0) = 2 * z_2 + 1`, while the derivative
`dz_2/dc = 2 * z_1 + 1` is `(21, 0)`. -/
theorem replay_not_orbit_derivative :
    pixel_coord (distpbm_viewport (10 : ℝ) 0 0.02 3 3).xmin
      (distpbm_viewport (10 : ℝ) 0 0.02 3 3).xmax 1 3 = 10 ∧
    pixel_coord (distpbm_viewport (10 : ℝ) 0 0.02 3 3).ymin
      (distpbm_viewport (10 : ℝ) 0 0.02 3 3).ymax 1 3 = 0 ∧
    (distpbm_delta (10 : ℝ) 0 0.02 3 3 1) ^ (-2 : Int) = 10000 ∧
    (fwd_final zero_orbits (10 : ℝ) 0 5).iter = 3 ∧
    (fwd_final zero_orbits (10 : ℝ) 0 5).x2 + (fwd_final zero_orbits (10 : ℝ) 0 5).y2
      > (huge : ℝ) ∧
    (replay_final 10000 (fwd_final zero_orbits (10 : ℝ) 0 5)).flag = false ∧
    (replay_final 10000 (fwd_final zero_orbits (10 : ℝ) 0 5)).xder = 221 ∧
    (replay_final 10000 (fwd_final zero_orbits (10 : ℝ) 0 5)).yder = 0 ∧
    dorbit (10 : ℝ) 0 (3 - 1) = (21, 0) ∧
    (replay_final 10000 (fwd_final zero_orbits (10 : ℝ) 0 5)).xder
      ≠ (dorbit (10 : ℝ) 0 (3 - 1)).1 := by
  have e : ((5 : Int)).toNat = 5 := rfl
  have p1 : pixel_coord (distpbm_viewport (10 : ℝ) 0 0.02 3 3).xmin
      (distpbm_viewport (10 : ℝ) 0 0.02 3 3).xmax 1 3 = 10 := by
    norm_num [pixel_coord, distpbm_viewport, distpbm_width_half]
  have p2 : pixel_coord (distpbm_viewport (10 : ℝ) 0 0.02 3 3).ymin
      (distpbm_viewport (10 : ℝ) 0 0.02 3 3).ymax 1 3 = 0 := by
    norm_num [pixel_coord, distpbm_viewport, distpbm_height_half]
  have p3 : (distpbm_delta (10 : ℝ) 0 0.02 3 3 1) ^ (-2 : Int) = 10000 := by
    have hd : distpbm_delta (10 : ℝ) 0 0.02 3 3 1 = 1 / 100 := by
      norm_num [distpbm_delta, mandel_delta, distpbm_viewport, distpbm_width_half]
    rw [hd]
    norm_num
  have h1 : (fwd_final zero_orbits (10 : ℝ) 0 5).iter = 3 := by
    norm_num [fwd_final, e, fwd_loop, while_loop, fwd_cond, fwd_init, fwd_step, huge]
  have h2 : (fwd_final zero_orbits (10 : ℝ) 0 5).x2 + (fwd_final zero_orbits (10 : ℝ) 0 5).y2
      > (huge : ℝ) := by
    norm_num [fwd_final, e, fwd_loop, while_loop, fwd_cond, fwd_init, fwd_step, huge]
  have h3 : (replay_final 10000 (fwd_final zero_orbits (10 : ℝ) 0 5)).flag = false := by
    norm_num [replay_final, replay_loop, replay_cond, replay_step, replay_init,
      exceeds, fwd_final, e, fwd_loop, while_loop, fwd_cond, fwd_init, fwd_step, huge,
      zero_orbits, Function.update_apply]
  have h4 : (replay_final 10000 (fwd_final zero_orbits (10 : ℝ) 0 5)).xder = 221 := by
    norm_num [replay_final, replay_loop, replay_cond, replay_step, replay_init,
      exceeds, fwd_final, e, fwd_loop, while_loop, fwd_cond, fwd_init, fwd_step, huge,
      zero_orbits, Function.update_apply]
  have h5 : (replay_final 10000 (fwd_final zero_orbits (10 : ℝ) 0 5)).yder = 0 := by
    norm_num [replay_final, replay_loop, replay_cond, replay_step, replay_init,
      exceeds, fwd_final, e, fwd_loop, while_loop, fwd_cond, fwd_init, fwd_step, huge,
      zero_orbits, Function.update_apply]
  have h6 : dorbit (10 : ℝ) 0 (3 - 1) = (21, 0) := by
    norm_num [dorbit, orbit]
  refine ⟨p1, p2, p3, h1, h2, h3, h4, h5, h6, ?_⟩
  rw [h4, h6]
  norm_num

/-! ## jdist -/

theorem jdist_body_fields (Cx Cy : K) (s : JState K) :
    (jdist_body Cx Cy s).x = s.x * s.x - s.y * s.y + Cx ∧
    (jdist_body Cx Cy s).y = 2 * s.x * s.y + Cy ∧
    (jdist_body Cx Cy s).xp = 2 * (s.x * s.xp - s.y * s.yp) ∧
    (jdist_body Cx Cy s).yp = 2 * (s.x * s.yp + s.y * s.xp) := by
  simp only [jdist_body]
  split_ifs <;> exact ⟨rfl, rfl, rfl, rfl⟩

/-- After a pass, `nz` and `nzp` hold the squared moduli of the new `z` and `z'`. -/
theorem jdist_body_nz (Cx Cy : K) (s : JState K) :
    (jdist_body Cx Cy s).nz
      = some ((jdist_body Cx Cy s).x * (jdist_body Cx Cy s).x
          + (jdist_body Cx Cy s).y * (jdist_body Cx Cy s).y) ∧
    (jdist_body Cx Cy s).nzp
      = some ((jdist_body Cx Cy s).xp * (jdist_body Cx Cy s).xp
          + (jdist_body Cx Cy s).yp * (jdist_body Cx Cy s).yp) := by
  simp only [jdist_body]
  split_ifs <;> exact ⟨rfl, rfl⟩

/-- A pass ends in `break` exactly when the test holds on the new values;
otherwise `i` is incremented. -/
theorem jdist_body_brk (Cx Cy : K) (s : JState K) :
    (jdist_test (jdist_body Cx Cy s) →
      (jdist_body Cx Cy s).brk = true ∧ (jdist_body Cx Cy s).i = s.i) ∧
    (¬ jdist_test (jdist_body Cx Cy s) →
      (jdist_body Cx Cy s).brk = false ∧ (jdist_body Cx Cy s).i = s.i + 1) := by
  have hf := jdist_body_fields Cx Cy s
  have key : jdist_test (jdist_body Cx Cy s) ↔
      (2 * (s.x * s.xp - s.y * s.yp) * (2 * (s.x * s.xp - s.y * s.yp))
          + 2 * (s.x * s.yp + s.y * s.xp) * (2 * (s.x * s.yp + s.y * s.xp)) > (jdist_bound : K) ∨
        (s.x * s.x - s.y * s.y + Cx) * (s.x * s.x - s.y * s.y + Cx)
          + (2 * s.x * s.y + Cy) * (2 * s.x * s.y + Cy) > (jdist_bound : K)) := by
    rw [jdist_test, hf.1, hf.2.1, hf.2.2.1, hf.2.2.2]
  constructor
  · intro ht
    rw [key] at ht
    simp only [jdist_body]
    rw [if_pos ht]
    exact ⟨rfl, rfl⟩
  · intro hn
    rw [key] at hn
    simp only [jdist_body]
    rw [if_neg hn]
    exact ⟨rfl, rfl⟩

theorem jdist_at_succ (Zx Zy Cx Cy : K) (k : Nat) :
    jdist_at Zx Zy Cx Cy (k + 1) = jdist_body Cx Cy (jdist_at Zx Zy Cx Cy k) := by
  rw [jdist_at, Function.iterate_succ_apply', jdist_at]

/-- As long as no pass ended in `break`, `i` counts the passes. -/
theorem jdist_at_counter (Zx Zy Cx Cy : K) (m : Nat)
    (h : ∀ j, 1 ≤ j → j ≤ m → ¬ jdist_test (jdist_at Zx Zy Cx Cy j)) :
    (jdist_at Zx Zy Cx Cy m).i = (m : Int) + 1 ∧ (jdist_at Zx Zy Cx Cy m).brk = false := by
  induction m with
  | zero => exact ⟨rfl, rfl⟩
  | succ m ih =>
    have ih := ih (fun j h1 h2 => h j h1 (Nat.le_succ_of_le h2))
    have hm := h (m + 1) (Nat.succ_pos m) (le_refl _)
    rw [jdist_at_succ] at hm ⊢
    obtain ⟨hb, hi⟩ := (jdist_body_brk Cx Cy (jdist_at Zx Zy Cx Cy m)).2 hm
    refine ⟨?_, hb⟩
    rw [hi, ih.1]
    push_cast
    ring

theorem jdist_final_exit (Zx Zy Cx Cy : K) (iter_max : Int) :
    ¬ jdist_cond iter_max (jdist_final Zx Zy Cx Cy iter_max) := by
  apply while_loop_exit (jdist_cond iter_max) (jdist_body Cx Cy)
    (fun s => if s.brk = true then 0 else (iter_max + 1 - s.i).toNat)
  · intro s hs
    have h1 := hs.1
    have h2 := hs.2
    simp only [h2]
    by_cases ht : jdist_test (jdist_body Cx Cy s)
    · obtain ⟨hb, _⟩ := (jdist_body_brk Cx Cy s).1 ht
      simp only [hb, if_true]
      simp
      omega
    · obtain ⟨hb, hi⟩ := (jdist_body_brk Cx Cy s).2 ht
      simp only [hb, hi]
      simp
      omega
  · simp [jdist_init]

/-- The loop of `jdist`, for `iter_max >= 1`, makes `k` passes where `k` is the
first pass in `1..iter_max` whose test holds, or `iter_max` if there is none. -/
theorem jdist_final_spec (Zx Zy Cx Cy : K) (iter_max : Int) (hm : 1 ≤ iter_max) :
    ∃ k : Nat, 1 ≤ k ∧ (k : Int) ≤ iter_max ∧
      jdist_final Zx Zy Cx Cy iter_max = jdist_at Zx Zy Cx Cy k ∧
      (∀ j, 1 ≤ j → j < k → ¬ jdist_test (jdist_at Zx Zy Cx Cy j)) ∧
      (jdist_test (jdist_at Zx Zy Cx Cy k) ∨ (k : Int) = iter_max) := by
  obtain ⟨n, _, hn, hall⟩ := while_loop_spec (jdist_cond iter_max) (jdist_body Cx Cy)
    iter_max.toNat (jdist_init Zx Zy)
  have hstop : ¬ jdist_cond iter_max (jdist_at Zx Zy Cx Cy n) := by
    have := jdist_final_exit Zx Zy Cx Cy iter_max
    rw [jdist_final, hn] at this
    exact this
  have hn0 : n ≠ 0 := by
    intro h0
    subst h0
    exact hstop ⟨hm, rfl⟩
  have hno : ∀ j, 1 ≤ j → j < n → ¬ jdist_test (jdist_at Zx Zy Cx Cy j) := by
    intro j h1 hj ht
    obtain ⟨i, hi⟩ : ∃ i, j = i + 1 := ⟨j - 1, by omega⟩
    have hc := (hall j hj).2
    have hb : (jdist_at Zx Zy Cx Cy j).brk = true := by
      rw [hi, jdist_at_succ] at ht ⊢
      exact ((jdist_body_brk Cx Cy _).1 ht).1
    rw [jdist_at] at hb
    rw [hb] at hc
    exact absurd hc (by simp)
  obtain ⟨m, hmn⟩ : ∃ m, n = m + 1 := ⟨n - 1, by omega⟩
  have hcount := jdist_at_counter Zx Zy Cx Cy m (fun j h1 h2 => hno j h1 (by omega))
  have hprev := (hall m (by omega)).1
  rw [← jdist_at, hcount.1] at hprev
  refine ⟨n, by omega, by omega, by rw [jdist_final, hn, jdist_at], hno, ?_⟩
  by_cases ht : jdist_test (jdist_at Zx Zy Cx Cy n)
  · exact Or.inl ht
  · right
    rw [hmn, jdist_at_succ] at ht hstop
    obtain ⟨hb, hi⟩ := (jdist_body_brk Cx Cy _).2 ht
    have : ¬ (jdist_body Cx Cy (jdist_at Zx Zy Cx Cy m)).i ≤ iter_max := by
      intro hle
      exact hstop ⟨hle, hb⟩
    rw [hi, hcount.1] at this
    omega
/-- The derivative of the `k`-th Julia iterate with respect to the start point
is the product of `2 * z_j` for `j < k`. -/
theorem julia_orbit_hasDerivAt (z0 c : ℂ) (k : Nat) :
    HasDerivAt (fun w => julia_orbit w c k)
      (Finset.prod (Finset.range k) (fun j => 2 * julia_orbit z0 c j)) z0 := by
  induction k with
  | zero =>
    simp only [julia_orbit, Finset.prod_range_zero]
    exact hasDerivAt_id z0
  | succ k ih =>
    have h := (ih.pow 2).add_const c
    simp only [julia_orbit]
    rw [Finset.prod_range_succ]
    convert h using 1
    simp
    ring

/-- After `k` passes `(x, y)` is the `k`-th iterate and `(xp, yp)` the product
of `2 * z_j` for `j < k`. -/
theorem jdist_at_complex (Zx Zy Cx Cy : ℝ) (k : Nat) :
    Complex.mk (jdist_at Zx Zy Cx Cy k).x (jdist_at Zx Zy Cx Cy k).y
      = julia_orbit (Complex.mk Zx Zy) (Complex.mk Cx Cy) k ∧
    Complex.mk (jdist_at Zx Zy Cx Cy k).xp (jdist_at Zx Zy Cx Cy k).yp
      = Finset.prod (Finset.range k)
          (fun j => 2 * julia_orbit (Complex.mk Zx Zy) (Complex.mk Cx Cy) j) := by
  induction k with
  | zero =>
    refine ⟨rfl, ?_⟩
    rw [Finset.prod_range_zero]
    rfl
  | succ k ih =>
    obtain ⟨hz, hp⟩ := ih
    obtain ⟨fx, fy, fxp, fyp⟩ := jdist_body_fields Cx Cy (jdist_at Zx Zy Cx Cy k)
    rw [jdist_at_succ, fx, fy, fxp, fyp, Finset.prod_range_succ, julia_orbit, ← hp, ← hz]
    constructor
    · apply Complex.ext
      · simp [pow_two]
      · simp [pow_two]; ring
    · apply Complex.ext
      · simp; ring
      · simp; ring

theorem jdist_test_complex (Zx Zy Cx Cy : ℝ) (k : Nat) :
    jdist_test (jdist_at Zx Zy Cx Cy k) ↔
      (Complex.normSq (Finset.prod (Finset.range k)
          (fun j => 2 * julia_orbit (Complex.mk Zx Zy) (Complex.mk Cx Cy) j)) > 10 ^ 60 ∨
        Complex.normSq (julia_orbit (Complex.mk Zx Zy) (Complex.mk Cx Cy) k) > 10 ^ 60) := by
  obtain ⟨hz, hp⟩ := jdist_at_complex Zx Zy Cx Cy k
  rw [← hz, ← hp, Complex.normSq_mk, Complex.normSq_mk, jdist_test, jdist_bound]

/-- C15: `jdist` (exact real arithmetic).  After `k` passes of the loop body
`(x, y)` is the `k`-th iterate `z_k` of `z -> z^2 + c` from `z0 = (Zx, Zy)` and
`(xp, yp)` is the product of `2 * z_j`, `j < k`, which is the derivative of `z_k`
with respect to `z0`.  For `iter_max >= 1` the loop stops after `k` passes, `k`
the first index in `1..iter_max` with `|z'_k|^2 > 1e60` or `|z_k|^2 > 1e60`, or
`iter_max` if there is none, and `jdist` returns
`2 * |z_k| * log |z_k| / |z'_k|` for that `k`, escaped or not. -/
theorem jdist_spec (Zx Zy Cx Cy : ℝ) (iter_max : Int) (hm : 1 ≤ iter_max) :
    (∀ k : Nat,
      Complex.mk (jdist_at Zx Zy Cx Cy k).x (jdist_at Zx Zy Cx Cy k).y
        = julia_orbit (Complex.mk Zx Zy) (Complex.mk Cx Cy) k ∧
      Complex.mk (jdist_at Zx Zy Cx Cy k).xp (jdist_at Zx Zy Cx Cy k).yp
        = Finset.prod (Finset.range k)
            (fun j => 2 * julia_orbit (Complex.mk Zx Zy) (Complex.mk Cx Cy) j) ∧
      HasDerivAt (fun w => julia_orbit w (Complex.mk Cx Cy) k)
        (Complex.mk (jdist_at Zx Zy Cx Cy k).xp (jdist_at Zx Zy Cx Cy k).yp)
        (Complex.mk Zx Zy)) ∧
    ∃ k : Nat, 1 ≤ k ∧ (k : Int) ≤ iter_max ∧
      jdist_final Zx Zy Cx Cy iter_max = jdist_at Zx Zy Cx Cy k ∧
      (∀ j, 1 ≤ j → j < k →
        ¬ (Complex.normSq (Finset.prod (Finset.range j)
              (fun l => 2 * julia_orbit (Complex.mk Zx Zy) (Complex.mk Cx Cy) l)) > 10 ^ 60 ∨
          Complex.normSq (julia_orbit (Complex.mk Zx Zy) (Complex.mk Cx Cy) j) > 10 ^ 60)) ∧
      ((Complex.normSq (Finset.prod (Finset.range k)
            (fun l => 2 * julia_orbit (Complex.mk Zx Zy) (Complex.mk Cx Cy) l)) > 10 ^ 60 ∨
          Complex.normSq (julia_orbit (Complex.mk Zx Zy) (Complex.mk Cx Cy) k) > 10 ^ 60) ∨
        (k : Int) = iter_max) ∧
      jdist Real.log Real.sqrt Zx Zy Cx Cy iter_max
        = some (2 * Complex.abs (julia_orbit (Complex.mk Zx Zy) (Complex.mk Cx Cy) k)
            * Real.log (Complex.abs (julia_orbit (Complex.mk Zx Zy) (Complex.mk Cx Cy) k))
            / Complex.abs (Finset.prod (Finset.range k)
                (fun l => 2 * julia_orbit (Complex.mk Zx Zy) (Complex.mk Cx Cy) l))) := by
  constructor
  · intro k
    obtain ⟨hz, hp⟩ := jdist_at_complex Zx Zy Cx Cy k
    refine ⟨hz, hp, ?_⟩
    rw [hp]
    exact julia_orbit_hasDerivAt _ _ k
  · obtain ⟨k, h1, hle, hfin, hfirst, hlast⟩ := jdist_final_spec Zx Zy Cx Cy iter_max hm
    refine ⟨k, h1, hle, hfin, ?_, ?_, ?_⟩
    · intro j hj1 hjk
      rw [← jdist_test_complex]
      exact hfirst j hj1 hjk
    · rcases hlast with h | h
      · exact Or.inl ((jdist_test_complex Zx Zy Cx Cy k).mp h)
      · exact Or.inr h
    · obtain ⟨m, hkm⟩ : ∃ m, k = m + 1 := ⟨k - 1, by omega⟩
      obtain ⟨hz, hp⟩ := jdist_at_complex Zx Zy Cx Cy k
      have hnz := jdist_body_nz Cx Cy (jdist_at Zx Zy Cx Cy m)
      rw [← jdist_at_succ, ← hkm] at hnz
      have hj : jdist Real.log Real.sqrt Zx Zy Cx Cy iter_max
          = some (jdist_formula Real.log Real.sqrt
              ((jdist_at Zx Zy Cx Cy k).x * (jdist_at Zx Zy Cx Cy k).x
                + (jdist_at Zx Zy Cx Cy k).y * (jdist_at Zx Zy Cx Cy k).y)
              ((jdist_at Zx Zy Cx Cy k).xp * (jdist_at Zx Zy Cx Cy k).xp
                + (jdist_at Zx Zy Cx Cy k).yp * (jdist_at Zx Zy Cx Cy k).yp)) := by
        simp only [jdist, hfin, hnz.1, hnz.2]
      rw [hj, ← hz, ← hp, Complex.abs_apply, Complex.abs_apply, Complex.normSq_mk,
        Complex.normSq_mk]
      rfl

/-- Witness for C15: `z0 = 1/2`, `c = 0`, `iter_max = 3`. -/
theorem jdist_spec_witness :
    ∃ k : Nat, 1 ≤ k ∧ (k : Int) ≤ 3 ∧
      jdist Real.log Real.sqrt (1 / 2) 0 0 0 3
        = some (2 * Complex.abs (julia_orbit (Complex.mk (1 / 2) 0) (Complex.mk 0 0) k)
            * Real.log (Complex.abs (julia_orbit (Complex.mk (1 / 2) 0) (Complex.mk 0 0) k))
            / Complex.abs (Finset.prod (Finset.range k)
                (fun l => 2 * julia_orbit (Complex.mk (1 / 2) 0) (Complex.mk 0 0) l))) := by
  obtain ⟨k, h1, h2, _, _, _, h6⟩ := (jdist_spec (1 / 2) 0 0 0 3 (by decide)).2
  exact ⟨k, h1, h2, h6⟩

/-! ## The grayscale quantizer of distjules.c -/

section Quantizer

variable [FloorRing K]

/-- The token printed is the decimal form of the sample, followed by a space. -/
theorem distjules_token_sample (dist delta threshold : K) :
    distjules_token dist delta threshold
      = toString (distjules_sample dist delta threshold) ++ " " := by
  by_cases h : dist < delta
  · rw [distjules_token, distjules_sample, if_pos h, if_pos h]
  · rw [distjules_token, distjules_sample, if_neg h, if_neg h]
    rfl

/-- C11 (amended): in distjules.c, with `delta = threshold * range / width`, the
sample is `0` when `dist >= delta` and otherwise the C conversion
`(int) (dist / (threshold/256))`, which truncates towards zero and equals the
floor when `dist >= 0` and `threshold > 0`; when moreover `width >= 1` and
`range <= width`, the sample of a distance `dist >= 0` lies in `0..255`. -/
theorem distjules_sample_spec (dist threshold range : K) (width : Int) :
    (distjules_delta range width threshold ≤ dist →
      distjules_sample dist (distjules_delta range width threshold) threshold = 0) ∧
    (dist < distjules_delta range width threshold →
      distjules_sample dist (distjules_delta range width threshold) threshold
        = c_int_cast (dist / (threshold / 256))) ∧
    (0 ≤ dist → 0 < threshold →
      c_int_cast (dist / (threshold / 256)) = Int.floor (dist / (threshold / 256))) ∧
    (0 ≤ dist → 0 < threshold → 1 ≤ width → range ≤ (width : K) →
      0 ≤ distjules_sample dist (distjules_delta range width threshold) threshold ∧
      distjules_sample dist (distjules_delta range width threshold) threshold ≤ 255) := by
  have hq : 0 ≤ dist → 0 < threshold → 0 ≤ dist / (threshold / 256) := by
    intro hd ht
    exact div_nonneg hd (div_nonneg ht.le (by norm_num))
  refine ⟨?_, ?_, ?_, ?_⟩
  · intro h
    rw [distjules_sample, if_neg (not_lt.mpr h)]
  · intro h
    rw [distjules_sample, if_pos h]
  · intro hd ht
    rw [c_int_cast, if_pos (hq hd ht)]
  · intro hd ht hw hr
    by_cases h : dist < distjules_delta range width threshold
    · rw [distjules_sample, if_pos h, c_int_cast, if_pos (hq hd ht)]
      have hwK : (0 : K) < (width : K) := by exact_mod_cast (show (0 : Int) < width by omega)
      have hdelta : distjules_delta range width threshold ≤ threshold := by
        rw [distjules_delta, div_le_iff₀ hwK]
        exact mul_le_mul_of_nonneg_left hr ht.le
      have hlt : dist / (threshold / 256) < 256 := by
        rw [div_lt_iff₀ (div_pos ht (by norm_num))]
        have : dist < threshold := lt_of_lt_of_le h hdelta
        linarith
      refine ⟨Int.floor_nonneg.mpr (hq hd ht), ?_⟩
      have : Int.floor (dist / (threshold / 256)) < 256 := by
        rw [Int.floor_lt]
        exact_mod_cast hlt
      omega
    · rw [distjules_sample, if_neg h]
      exact ⟨le_refl _, by decide⟩

end Quantizer

/-- Witness for C11 (amended): `dist = 1/4`, `threshold = 1`, `range = 1`,
`width = 2` over the reals. -/
theorem distjules_sample_spec_witness :
    0 ≤ distjules_sample (1 / 4 : ℝ) (distjules_delta (1 : ℝ) 2 1) 1 ∧
    distjules_sample (1 / 4 : ℝ) (distjules_delta (1 : ℝ) 2 1) 1 ≤ 255 :=
  (distjules_sample_spec (1 / 4 : ℝ) 1 1 2).2.2.2 (by norm_num) (by norm_num) (by decide)
    (by norm_num)

/-- C11 as stated fails: with `threshold = 1`, `range = 1`, `width = 1` (so
`delta = 1`) the distance `dist = -3/512` is below `delta`, and the emitted
sample is `(int)(-1.5) = -1`, which is neither `floor(-1.5) = -2` nor in
`0..255`. -/
theorem distjules_sample_negative :
    (0 : ℝ) < 1 ∧
    (-3 / 512 : ℝ) < distjules_delta (1 : ℝ) 1 1 ∧
    distjules_sample (-3 / 512 : ℝ) (distjules_delta (1 : ℝ) 1 1) 1 = -1 ∧
    Int.floor ((-3 / 512 : ℝ) / (1 / 256)) = -2 ∧
    ¬ (0 ≤ distjules_sample (-3 / 512 : ℝ) (distjules_delta (1 : ℝ) 1 1) 1 ∧
      distjules_sample (-3 / 512 : ℝ) (distjules_delta (1 : ℝ) 1 1) 1 ≤ 255) := by
  have hd : distjules_delta (1 : ℝ) 1 1 = 1 := by norm_num [distjules_delta]
  have hq : (-3 / 512 : ℝ) / (1 / 256) = -3 / 2 := by norm_num
  have hs : distjules_sample (-3 / 512 : ℝ) (distjules_delta (1 : ℝ) 1 1) 1 = -1 := by
    rw [hd, distjules_sample, if_pos (by norm_num), hq, c_int_cast, if_neg (by norm_num),
      Int.ceil_eq_iff]
    norm_num
  refine ⟨by norm_num, by rw [hd]; norm_num, hs, ?_, ?_⟩
  · rw [hq, Int.floor_eq_iff]
    norm_num
  · rw [hs]
    decide

/-! ## The image data of distps.c -/

set_option maxRecDepth 100000 in
/-- For `data < 256`, `%02x` prints the two hexadecimal digits of `data`. -/
theorem printf_02x_byte :
    ∀ d, d < 256 → (printf_02x d).data = [Nat.digitChar (d / 16), Nat.digitChar (d % 16)] := by
  decide

set_option maxRecDepth 100000 in
theorem printf_02x_no_newline : ∀ d, d < 256 → '\n' ∉ (printf_02x d).data := by
  decide

theorem printf_02x_length (d : Nat) (h : d < 256) : (printf_02x d).data.length = 2 := by
  rw [printf_02x_byte d h]
  rfl

theorem or_bit_lt (d pw : Nat) (h : d < 256) : d ||| (1 <<< (7 - pw)) < 256 := by
  have h1 : d < 2 ^ 8 := h
  have h2 : 1 <<< (7 - pw) < 2 ^ 8 := by
    rw [Nat.one_shiftLeft]
    exact Nat.pow_lt_pow_right (by decide) (by omega)
  exact Nat.or_lt_two_pow h1 h2

theorem set_bit_lt (b : Bool) (d pw : Nat) (h : d < 256) :
    (if b then d ||| (1 <<< (7 - pw)) else d) < 256 := by
  cases b
  · exact h
  · exact or_bit_lt d pw h

theorem pack_bits_lt : ∀ (c : List Bool) (pw d : Nat), d < 256 → pack_bits pw d c < 256 := by
  intro c
  induction c with
  | nil => intro pw d h; exact h
  | cons b c ih =>
    intro pw d h
    rw [pack_bits]
    exact ih (pw + 1) _ (set_bit_lt b d pw h)

theorem ps_bytes_lt : ∀ (bs : List Bool) (pw d : Nat), d < 256 →
    ∀ b, b ∈ ps_bytes pw d bs → b < 256 := by
  intro bs
  induction bs with
  | nil =>
    intro pw d h b hb
    rw [ps_bytes, List.mem_singleton] at hb
    rw [hb]; exact h
  | cons x bs ih =>
    intro pw d h b hb
    rw [ps_bytes] at hb
    by_cases hp : pw = 8
    · rw [if_pos hp] at hb
      rcases List.mem_cons.mp hb with h1 | h1
      · rw [h1]; exact h
      · exact ih 1 _ (set_bit_lt x 0 0 (by decide)) b h1
    · rw [if_neg hp] at hb
      exact ih (pw + 1) _ (set_bit_lt x d pw h) b hb

/-- Without its newlines the output is the hex form of the bytes followed by
`showpage`. -/
theorem ps_layout_filter : ∀ (bs : List Bool) (lp : Int) (pw d : Nat), d < 256 →
    (ps_layout lp pw d bs).filter (fun c => c != '\n')
      = (ps_bytes pw d bs).flatMap (fun b => (printf_02x b).data) ++ ("showpage").data := by
  have hf : ∀ d, d < 256 →
      (printf_02x d).data.filter (fun c => c != '\n') = (printf_02x d).data := by
    intro d hd
    rw [List.filter_eq_self]
    intro c hc
    have := printf_02x_no_newline d hd
    simp only [bne_iff_ne, ne_eq]
    intro hcn
    rw [hcn] at hc
    exact this hc
  intro bs
  induction bs with
  | nil =>
    intro lp pw d h
    rw [ps_layout, ps_bytes, List.filter_append, hf d h]
    simp
  | cons x bs ih =>
    intro lp pw d h
    rw [ps_layout, ps_bytes]
    by_cases hp : pw = 8
    · rw [if_pos hp, if_pos hp]
      by_cases hl : lp + 2 > 70
      · rw [if_pos hl, List.filter_append, hf d h, List.filter_cons_of_neg (by decide),
          ih 0 1 _ (set_bit_lt x 0 0 (by decide)), List.flatMap_cons, List.append_assoc]
      · rw [if_neg hl, List.filter_append, hf d h,
          ih (lp + 2) 1 _ (set_bit_lt x 0 0 (by decide)), List.flatMap_cons, List.append_assoc]
    · rw [if_neg hp, if_neg hp]
      exact ih lp (pw + 1) _ (set_bit_lt x d pw h)

/-- Bits that fit into the current byte are or-ed in without any output. -/
theorem ps_bytes_fill : ∀ (a : List Bool) (pw d : Nat) (rest : List Bool),
    pw + a.length ≤ 8 →
    ps_bytes pw d (a ++ rest) = ps_bytes (pw + a.length) (pack_bits pw d a) rest := by
  intro a
  induction a with
  | nil => intro pw d rest _; rfl
  | cons b a ih =>
    intro pw d rest h
    rw [List.length_cons] at h
    have hp : pw ≠ 8 := by omega
    rw [List.cons_append, ps_bytes, if_neg hp, ih (pw + 1) _ rest (by omega), pack_bits,
      List.length_cons]
    congr 1
    omega

theorem ps_layout_fill : ∀ (a : List Bool) (lp : Int) (pw d : Nat) (rest : List Bool),
    pw + a.length ≤ 8 →
    ps_layout lp pw d (a ++ rest) = ps_layout lp (pw + a.length) (pack_bits pw d a) rest := by
  intro a
  induction a with
  | nil => intro lp pw d rest _; rfl
  | cons b a ih =>
    intro lp pw d rest h
    rw [List.length_cons] at h
    have hp : pw ≠ 8 := by omega
    rw [List.cons_append, ps_layout, if_neg hp, ih lp (pw + 1) _ rest (by omega), pack_bits,
      List.length_cons]
    congr 1
    omega

/-- A full byte is printed when the next pixel arrives. -/
theorem ps_bytes_chunk (c : List Bool) (hc : c.length = 8) (b : Bool) (rest : List Bool) :
    ps_bytes 0 0 (c ++ b :: rest) = pack_bits 0 0 c :: ps_bytes 0 0 (b :: rest) := by
  rw [ps_bytes_fill c 0 0 (b :: rest) (by omega), hc, ps_bytes, if_pos rfl]
  rfl

theorem ps_bytes_last (c : List Bool) (hc : c.length = 8) :
    ps_bytes 0 0 c = [pack_bits 0 0 c] := by
  have := ps_bytes_fill c 0 0 [] (by omega)
  rw [List.append_nil] at this
  rw [this]
  rfl

theorem ps_layout_chunk (lp : Int) (c : List Bool) (hc : c.length = 8) (b : Bool)
    (rest : List Bool) :
    ps_layout lp 0 0 (c ++ b :: rest)
      = (printf_02x (pack_bits 0 0 c)).data
        ++ (if lp + 2 > 70 then '\n' :: ps_layout 0 0 0 (b :: rest)
            else ps_layout (lp + 2) 0 0 (b :: rest)) := by
  rw [ps_layout_fill c lp 0 0 (b :: rest) (by omega), hc, ps_layout, if_pos rfl]
  by_cases hl : lp + 2 > 70
  · rw [if_pos hl, if_pos hl]; rfl
  · rw [if_neg hl, if_neg hl]; rfl

/-- With `8 * (m + 1)` pixel bits the bytes printed are the `m + 1` groups of
eight. -/
theorem ps_bytes_chunks : ∀ (m : Nat) (bs : List Bool), bs.length = 8 * (m + 1) →
    ps_bytes 0 0 bs = chunk_bytes (m + 1) bs := by
  intro m
  induction m with
  | zero =>
    intro bs h
    have h8 : bs.length = 8 := by omega
    have hd : bs.drop 8 = [] := by
      apply List.eq_nil_of_length_eq_zero
      rw [List.length_drop]; omega
    have ht : bs.take 8 = bs := by
      rw [List.take_of_length_le (by omega)]
    rw [ps_bytes_last bs h8, chunk_bytes, chunk_bytes, ht]
  | succ m ih =>
    intro bs h
    have hsplit : bs = bs.take 8 ++ bs.drop 8 := (List.take_append_drop 8 bs).symm
    have htl : (bs.take 8).length = 8 := by rw [List.length_take]; omega
    have hdl : (bs.drop 8).length = 8 * (m + 1) := by rw [List.length_drop]; omega
    cases hd : bs.drop 8 with
    | nil => rw [hd] at hdl; simp at hdl
    | cons b rest =>
      have e : ps_bytes 0 0 bs = ps_bytes 0 0 (bs.take 8 ++ b :: rest) := by
        rw [← hd, ← hsplit]
      rw [e, ps_bytes_chunk _ htl, ← hd, ih _ hdl]
      rfl

theorem chunk_bytes_length : ∀ (m : Nat) (bs : List Bool), (chunk_bytes m bs).length = m := by
  intro m
  induction m with
  | zero => intro bs; rfl
  | succ m ih => intro bs; rw [chunk_bytes, List.length_cons, ih]

theorem chunk_bytes_getElem : ∀ (m k : Nat) (bs : List Bool), k < m →
    (chunk_bytes m bs)[k]? = some (pack_bits 0 0 ((bs.drop (8 * k)).take 8)) := by
  intro m
  induction m with
  | zero => intro k bs hk; exact absurd hk (Nat.not_lt_zero k)
  | succ m ih =>
    intro k bs hk
    rw [chunk_bytes]
    cases k with
    | zero => simp
    | succ k =>
      rw [List.getElem?_cons_succ, ih k _ (by omega), List.drop_drop]
      congr 4
      ring
set_option maxRecDepth 1000000 in
/-- In a byte packed from eight bits, bit `7 - j` is the `j`-th of them. -/
theorem pack_bits_testBit_eight : ∀ b0 b1 b2 b3 b4 b5 b6 b7 : Bool, ∀ j : Fin 8,
    (pack_bits 0 0 [b0, b1, b2, b3, b4, b5, b6, b7]).testBit (7 - j.val)
      = [b0, b1, b2, b3, b4, b5, b6, b7].getD j.val false := by
  decide

theorem list_eight {α : Type} (c : List α) (h : c.length = 8) :
    ∃ b0 b1 b2 b3 b4 b5 b6 b7, c = [b0, b1, b2, b3, b4, b5, b6, b7] := by
  rcases c with _ | ⟨b0, _ | ⟨b1, _ | ⟨b2, _ | ⟨b3, _ | ⟨b4, _ | ⟨b5, _ | ⟨b6, _ | ⟨b7, _ | ⟨b8, t⟩⟩⟩⟩⟩⟩⟩⟩⟩
  all_goals first
    | exact ⟨b0, b1, b2, b3, b4, b5, b6, b7, rfl⟩
    | (simp at h)

theorem pack_bits_testBit (c : List Bool) (hc : c.length = 8) (j : Nat) (hj : j < 8) :
    (pack_bits 0 0 c).testBit (7 - j) = c.getD j false := by
  obtain ⟨b0, b1, b2, b3, b4, b5, b6, b7, rfl⟩ := list_eight c hc
  exact pack_bits_testBit_eight b0 b1 b2 b3 b4 b5 b6 b7 ⟨j, hj⟩

/-- Bit `7 - p % 8` of byte `p / 8` of the packed data is bit `p` of the list. -/
theorem chunk_bytes_testBit (m : Nat) (bs : List Bool) (hlen : bs.length = 8 * m) (p : Nat)
    (hp : p < bs.length) (v : Bool) (hv : bs[p]? = some v) :
    ∃ b, (chunk_bytes m bs)[p / 8]? = some b ∧ b.testBit (7 - p % 8) = v := by
  have hk : p / 8 < m := by omega
  refine ⟨_, chunk_bytes_getElem m (p / 8) bs hk, ?_⟩
  have hcl : ((bs.drop (8 * (p / 8))).take 8).length = 8 := by
    rw [List.length_take, List.length_drop]; omega
  rw [pack_bits_testBit _ hcl (p % 8) (Nat.mod_lt p (by decide)), List.getD_eq_getElem?_getD,
    List.getElem?_take_of_lt (Nat.mod_lt p (by decide)), List.getElem?_drop,
    Nat.div_add_mod p 8, hv]
  rfl

theorem flatMap_hex (bytes : List Nat) (h : ∀ b, b ∈ bytes → b < 256) :
    bytes.flatMap (fun b => (printf_02x b).data)
      = bytes.flatMap (fun b => [Nat.digitChar (b / 16), Nat.digitChar (b % 16)]) := by
  induction bytes with
  | nil => rfl
  | cons b bytes ih =>
    rw [List.flatMap_cons, List.flatMap_cons, ih (fun c hc => h c (List.mem_cons_of_mem b hc)),
      printf_02x_byte b (h b (List.mem_cons_self b bytes))]

/-- The pixel loops of distps.c followed by the final `printf` write the layout
of the pixel bits, each bit telling whether `estimate_distance` at the pixel's
coordinate is `>= delta`, whatever the buffers hold. -/
theorem distps_pixels_out (logf sqrtf : K → K) (overflow delta : K) (vp : Viewport K)
    (width height maxiter : Int) (orb0 : Orbits K) :
    ∀ (ps : List (Nat × Nat)) (st : PsState K),
      ((ps.foldl (fun st p => distps_pixel logf sqrtf overflow delta vp width maxiter
            (pixel_coord vp.ymin vp.ymax (p.1 : Int) height) st p.2) st).out
          ++ printf_02x (ps.foldl (fun st p => distps_pixel logf sqrtf overflow delta vp width
              maxiter (pixel_coord vp.ymin vp.ymax (p.1 : Int) height) st p.2) st).data
          ++ "\nshowpage\n").data
        = st.out.data ++ ps_layout st.linepos st.power st.data (ps.map (fun p =>
            decide (estimate_distance logf sqrtf overflow orb0
              (pixel_coord vp.xmin vp.xmax (p.2 : Int) width)
              (pixel_coord vp.ymin vp.ymax (p.1 : Int) height) maxiter ≥ delta))) := by
  intro ps
  induction ps with
  | nil => intro st; simp [ps_layout]
  | cons p ps ih =>
    intro st
    rw [List.foldl_cons, ih, List.map_cons, ps_layout]
    have hind := estimate_distance_orbits_irrelevant logf sqrtf overflow (distps_flush st).orb
      orb0 (pixel_coord vp.xmin vp.xmax (p.2 : Int) width)
      (pixel_coord vp.ymin vp.ymax (p.1 : Int) height) maxiter
    by_cases hp : st.power = 8
    · by_cases hl : st.linepos + 2 > 70
      · simp only [distps_pixel, hind]
        simp [distps_flush, hp, hl]
      · simp only [distps_pixel, hind]
        simp [distps_flush, hp, hl]
    · simp only [distps_pixel, hind]
      simp [distps_flush, hp]
/-- The output of distps.c after the preamble is the layout of the pixel bits
in raster order. -/
theorem distps_data_layout (logf sqrtf : K → K) (powf : K → K → K) (orb0 : Orbits K)
    (x y range : K) (width height maxiter threshold : Int) :
    (distps_data logf sqrtf powf orb0 x y range width height maxiter threshold).data
      = ps_layout 0 0 0 ((raster_pixels width height).map (fun p =>
          decide (estimate_distance logf sqrtf
            (powf (distps_delta x y range width height threshold) (-2)) orb0
            (pixel_coord (distps_viewport x y range width height).xmin
              (distps_viewport x y range width height).xmax (p.2 : Int) width)
            (pixel_coord (distps_viewport x y range width height).ymin
              (distps_viewport x y range width height).ymax (p.1 : Int) height) maxiter
            ≥ distps_delta x y range width height threshold))) := by
  simp only [distps_data, distps_loops]
  unfold distps_row
  rw [foldl_rows_cols, ← raster_pixels]
  exact distps_pixels_out logf sqrtf _ _ _ width height maxiter orb0 _ _

/-- C12: in distps.c, for `width` a positive multiple of 8 and `height >= 1`
(allocation of the orbit buffers succeeding), the image data printed after the
preamble consists, apart from newlines and the closing `showpage`, of exactly
`width * height / 8` bytes, each printed as two hexadecimal digits; the pixel
with raster index `p = iy * width + ix` is bit `7 - p % 8` of byte `p / 8`, that
bit being set exactly when `estimate_distance` at the pixel's coordinate is
`>= delta`; byte `p / 8` is byte `ix / 8` of row `iy`, each row filling
`width / 8` whole bytes. -/
theorem distps_bit_packing (logf sqrtf : K → K) (powf : K → K → K) (preamble : String)
    (orb0 : Orbits K) (x y range : K) (width height maxiter threshold : Int)
    (hw : 0 < width) (h8 : 8 ∣ width) (hh : 1 ≤ height) :
    ∃ (body : List Char) (bytes : List Nat),
      (distps_main logf sqrtf powf preamble true orb0 x y range width height maxiter
          threshold).data = preamble.data ++ body ∧
      body.filter (fun c => c != '\n')
        = bytes.flatMap (fun b => [Nat.digitChar (b / 16), Nat.digitChar (b % 16)])
          ++ ("showpage").data ∧
      (bytes.length : Int) = width * height / 8 ∧
      (∀ b, b ∈ bytes → b < 256) ∧
      (∀ iy ix : Nat, (iy : Int) < height → (ix : Int) < width →
        ∃ b, bytes[(iy * width.toNat + ix) / 8]? = some b ∧
          b.testBit (7 - (iy * width.toNat + ix) % 8)
            = decide (estimate_distance logf sqrtf
                (powf (distps_delta x y range width height threshold) (-2)) orb0
                (pixel_coord (distps_viewport x y range width height).xmin
                  (distps_viewport x y range width height).xmax (ix : Int) width)
                (pixel_coord (distps_viewport x y range width height).ymin
                  (distps_viewport x y range width height).ymax (iy : Int) height) maxiter
                ≥ distps_delta x y range width height threshold)) ∧
      (∀ iy ix : Nat,
        (iy * width.toNat + ix) / 8 = iy * (width.toNat / 8) + ix / 8) := by
  have hlay := distps_data_layout logf sqrtf powf orb0 x y range width height maxiter threshold
  have hlenr : (raster_pixels width height).length = height.toNat * width.toNat := by
    rw [raster_pixels, rows_cols_length, List.length_range, List.length_range]
  obtain ⟨q, hq⟩ : ∃ q : Nat, width.toNat = 8 * q := by
    obtain ⟨r, hr⟩ := h8
    exact ⟨r.toNat, by omega⟩
  obtain ⟨m, hm⟩ : ∃ m : Nat, height.toNat * width.toNat = 8 * (m + 1) := by
    refine ⟨height.toNat * q - 1, ?_⟩
    have h1 : 1 ≤ height.toNat := by omega
    have h2 : 1 ≤ q := by omega
    have h3 : 1 ≤ height.toNat * q := Nat.mul_pos h1 h2
    have h4 : height.toNat * q - 1 + 1 = height.toNat * q := by omega
    rw [hq, h4]
    ring
  generalize hbits : (raster_pixels width height).map (fun p =>
      decide (estimate_distance logf sqrtf
        (powf (distps_delta x y range width height threshold) (-2)) orb0
        (pixel_coord (distps_viewport x y range width height).xmin
          (distps_viewport x y range width height).xmax (p.2 : Int) width)
        (pixel_coord (distps_viewport x y range width height).ymin
          (distps_viewport x y range width height).ymax (p.1 : Int) height) maxiter
        ≥ distps_delta x y range width height threshold)) = bits at hlay
  have hblen : bits.length = 8 * (m + 1) := by
    rw [← hbits, List.length_map, hlenr, hm]
  have hbytes : ps_bytes 0 0 bits = chunk_bytes (m + 1) bits := ps_bytes_chunks m bits hblen
  have hlt : ∀ b, b ∈ chunk_bytes (m + 1) bits → b < 256 := by
    intro b hb
    rw [← hbytes] at hb
    exact ps_bytes_lt bits 0 0 (by decide) b hb
  refine ⟨ps_layout 0 0 0 bits, chunk_bytes (m + 1) bits, ?_, ?_, ?_, hlt, ?_, ?_⟩
  · simp only [distps_main, if_true, String.data_append, hlay]
  · rw [ps_layout_filter bits 0 0 0 (by decide), hbytes, flatMap_hex _ hlt]
  · rw [chunk_bytes_length]
    have e : width * height = ((8 * (m + 1) : Nat) : Int) := by
      rw [← hm]
      push_cast
      rw [Int.toNat_of_nonneg (by omega), Int.toNat_of_nonneg (by omega)]
      ring
    rw [e]
    push_cast
    omega
  · intro iy ix hiy hix
    have hp : iy * width.toNat + ix < bits.length := by
      rw [hblen, ← hm]
      have h1 : (iy + 1) * width.toNat ≤ height.toNat * width.toNat :=
        Nat.mul_le_mul_right _ (by omega)
      have h2 : (iy + 1) * width.toNat = iy * width.toNat + width.toNat := by ring
      omega
    have hv := rows_cols_getElem width.toNat height.toNat iy ix (by omega) (by omega)
    rw [← raster_pixels] at hv
    apply chunk_bytes_testBit (m + 1) bits hblen _ hp
    rw [← hbits, List.getElem?_map, hv]
    rfl
  · intro iy ix
    rw [hq]
    have e : iy * (8 * q) + ix = ix + 8 * (iy * q) := by ring
    rw [e, Nat.add_mul_div_left _ _ (by decide), Nat.mul_div_cancel_left _ (by decide)]
    ring
/-- Witness for C12: the 64 x 64 scenario over the reals, with an empty
preamble. -/
theorem distps_bit_packing_witness :
    ∃ (body : List Char) (bytes : List Nat),
      (distps_main Real.log Real.sqrt (fun d e => d ^ e) "" true zero_orbits
          (-0.8 : ℝ) (-0.1671) 0.01 64 64 256 1).data = ("").data ++ body ∧
      body.filter (fun c => c != '\n')
        = bytes.flatMap (fun b => [Nat.digitChar (b / 16), Nat.digitChar (b % 16)])
          ++ ("showpage").data ∧
      (bytes.length : Int) = 64 * 64 / 8 := by
  obtain ⟨body, bytes, h1, h2, h3, _⟩ :=
    distps_bit_packing Real.log Real.sqrt (fun d e => d ^ e) "" zero_orbits
      (-0.8 : ℝ) (-0.1671) 0.01 64 64 256 1 (by decide) (by decide) (by decide)
  exact ⟨body, bytes, h1, h2, h3⟩

/-! ## Line structure of the image data of distps.c -/

/-- As long as `linepos` stays at most 70, bytes are printed without newline. -/
theorem ps_layout_bytes_fit : ∀ (n : Nat) (lp : Int) (bs : List Bool),
    lp + 2 * (n : Int) ≤ 70 → 8 * n + 1 ≤ bs.length →
    ∃ l : List Char,
      ps_layout lp 0 0 bs = l ++ ps_layout (lp + 2 * (n : Int)) 0 0 (bs.drop (8 * n)) ∧
      l.length = 2 * n ∧ '\n' ∉ l := by
  intro n
  induction n with
  | zero =>
    intro lp bs _ _
    refine ⟨[], ?_, rfl, List.not_mem_nil _⟩
    simp
  | succ n ih =>
    intro lp bs hlp hlen
    push_cast at hlp
    have hsplit : bs = bs.take 8 ++ bs.drop 8 := (List.take_append_drop 8 bs).symm
    have htl : (bs.take 8).length = 8 := by rw [List.length_take]; omega
    have hdl : (bs.drop 8).length = bs.length - 8 := List.length_drop 8 bs
    cases hd : bs.drop 8 with
    | nil => rw [hd] at hdl; simp at hdl; omega
    | cons b rest =>
      have e : ps_layout lp 0 0 bs = ps_layout lp 0 0 (bs.take 8 ++ b :: rest) := by
        rw [← hd, ← hsplit]
      have hl : ¬ lp + 2 > 70 := by omega
      obtain ⟨l, hl1, hl2, hl3⟩ := ih (lp + 2) (bs.drop 8) (by omega) (by omega)
      have hb : pack_bits 0 0 (bs.take 8) < 256 := pack_bits_lt _ 0 0 (by decide)
      refine ⟨(printf_02x (pack_bits 0 0 (bs.take 8))).data ++ l, ?_, ?_, ?_⟩
      · rw [e, ps_layout_chunk lp _ htl, if_neg hl, ← hd, hl1, List.drop_drop, List.append_assoc]
        have e1 : lp + 2 + 2 * (n : Int) = lp + 2 * ((n : Int) + 1) := by ring
        have e2 : 8 * n + 8 = 8 * (n + 1) := by ring
        have e3 : 8 + 8 * n = 8 * (n + 1) := by ring
        simp only [e1, e2, e3, Nat.cast_add, Nat.cast_one]
      · rw [List.length_append, printf_02x_length _ hb, hl2]; ring
      · intro hmem
        rcases List.mem_append.mp hmem with h | h
        · exact printf_02x_no_newline _ hb h
        · exact hl3 h

/-- With at least 289 pixels the first line of the image data holds 36 bytes,
that is 72 hexadecimal characters. -/
theorem ps_layout_first_line (bs : List Bool) (hlen : 289 ≤ bs.length) :
    ∃ l1 rest : List Char,
      ps_layout 0 0 0 bs = l1 ++ '\n' :: rest ∧ l1.length = 72 ∧ '\n' ∉ l1 := by
  obtain ⟨l, hl1, hl2, hl3⟩ := ps_layout_bytes_fit 35 0 bs (by decide) (by omega)
  have e70 : (0 : Int) + 2 * ((35 : Nat) : Int) = 70 := by decide
  rw [e70] at hl1
  have hdl : (bs.drop (8 * 35)).length = bs.length - 8 * 35 := List.length_drop _ bs
  have hsplit : bs.drop (8 * 35) = (bs.drop (8 * 35)).take 8 ++ (bs.drop (8 * 35)).drop 8 :=
    (List.take_append_drop 8 _).symm
  have htl : ((bs.drop (8 * 35)).take 8).length = 8 := by rw [List.length_take]; omega
  have hddl : ((bs.drop (8 * 35)).drop 8).length = (bs.drop (8 * 35)).length - 8 :=
    List.length_drop 8 _
  cases hd : (bs.drop (8 * 35)).drop 8 with
  | nil => rw [hd] at hddl; simp at hddl; omega
  | cons b rest =>
    have hb : pack_bits 0 0 ((bs.drop (8 * 35)).take 8) < 256 := pack_bits_lt _ 0 0 (by decide)
    have e : ps_layout 70 0 0 (bs.drop (8 * 35))
        = ps_layout 70 0 0 ((bs.drop (8 * 35)).take 8 ++ b :: rest) := by
      rw [← hd, ← hsplit]
    refine ⟨l ++ (printf_02x (pack_bits 0 0 ((bs.drop (8 * 35)).take 8))).data,
      ps_layout 0 0 0 (b :: rest), ?_, ?_, ?_⟩
    · rw [hl1, e, ps_layout_chunk 70 _ htl, if_pos (by decide), List.append_assoc]
    · rw [List.length_append, printf_02x_length _ hb, hl2]
    · intro hmem
      rcases List.mem_append.mp hmem with h | h
      · exact hl3 h
      · exact printf_02x_no_newline _ hb h

/-- C13 (evaluation at the failing input): for a 64 x 64 image, whatever the
remaining arguments, the first line of the hex image data of distps.c has 72
characters (36 bytes); the data ends with the last byte, a newline and the
line `showpage`. -/
theorem distps_main_first_line (logf sqrtf : K → K) (powf : K → K → K) (preamble : String)
    (orb0 : Orbits K) (x y range : K) (maxiter threshold : Int) :
    (∃ l1 rest : List Char,
      (distps_main logf sqrtf powf preamble true orb0 x y range 64 64 maxiter threshold).data
        = preamble.data ++ (l1 ++ '\n' :: rest) ∧
      l1.length = 72 ∧ '\n' ∉ l1) ∧
    (distps_main logf sqrtf powf preamble true orb0 x y range 64 64 maxiter threshold).data
      = preamble.data
        ++ ((distps_loops logf sqrtf powf orb0 x y range 64 64 maxiter threshold).out.data
          ++ ((printf_02x
              (distps_loops logf sqrtf powf orb0 x y range 64 64 maxiter threshold).data).data
            ++ ("\nshowpage\n").data)) := by
  constructor
  · have hlay := distps_data_layout logf sqrtf powf orb0 x y range 64 64 maxiter threshold
    have hlenI : ((raster_pixels 64 64).length : Int) = 64 * 64 :=
      raster_pixels_length 64 64 (by decide) (by decide)
    have hlen : (raster_pixels 64 64).length = 4096 := by omega
    obtain ⟨l1, rest, h1, h2, h3⟩ := ps_layout_first_line
      ((raster_pixels 64 64).map (fun p =>
        decide (estimate_distance logf sqrtf
          (powf (distps_delta x y range 64 64 threshold) (-2)) orb0
          (pixel_coord (distps_viewport x y range 64 64).xmin
            (distps_viewport x y range 64 64).xmax (p.2 : Int) 64)
          (pixel_coord (distps_viewport x y range 64 64).ymin
            (distps_viewport x y range 64 64).ymax (p.1 : Int) 64) maxiter
          ≥ distps_delta x y range 64 64 threshold)))
      (by rw [List.length_map, hlen]; decide)
    refine ⟨l1, rest, ?_, h2, h3⟩
    rw [distps_main, if_pos rfl, String.data_append, hlay, h1]
  · rw [distps_main, if_pos rfl, distps_data, String.data_append, String.data_append,
      String.data_append, List.append_assoc]

end DistanceEstimator
